import Mathlib

/-!
Clustering, region matching and lidar TTC of `camFusion_Student.cpp`.

A shallow embedding of `src/src/camFusion_Student.cpp` and the properties of its
three algorithms: `clusterLidarWithROI`, `matchBoundingBoxes` and `computeTTCLidar`.

Conventions of the embedding.

* `double` and `float` values are rationals (`ℚ`): rounding is not modelled, and a
  conversion from a floating value to `int` truncates toward zero (`truncToInt`).
  A statement that has to hold for whatever values the rounded operations yield is made
  on `clusterLidarWithROIWith`, which takes those values as given.
* `int` values are `Int`; the arithmetic done on them (`x + width`, a vote counter
  going up by one per correspondence) stays far below `2^31` and is not reduced.
* reading a `std::vector` outside its bounds is undefined in C++; the embedding makes
  the read fallible and the enclosing function returns an error.
* `assert` is live (the build does not define `NDEBUG`): a failed assertion is an error.
-/

namespace CamFusion

/-! ## Data model (`dataStructures.h`, OpenCV value types) -/

/-- A lidar measurement: `double x, y, z, r` (forward, left, up, reflectivity). -/
structure LidarPoint where
  x : ℚ
  y : ℚ
  z : ℚ
  r : ℚ
  deriving DecidableEq

/-- An integer pixel position, `cv::Point`. -/
structure Point where
  x : Int
  y : Int
  deriving DecidableEq, Repr

/-- An integer rectangle, `cv::Rect`: top-left corner and size. -/
structure Rect where
  x : Int
  y : Int
  width : Int
  height : Int
  deriving DecidableEq, Repr

/-- The half-open containment test of OpenCV, `cv::Rect::contains`:
`x <= pt.x && pt.x < x + width && y <= pt.y && pt.y < y + height`. -/
def Rect.contains (rc : Rect) (pt : Point) : Bool :=
  decide (rc.x ≤ pt.x) && decide (pt.x < rc.x + rc.width) &&
    decide (rc.y ≤ pt.y) && decide (pt.y < rc.y + rc.height)

/-- The fields of `BoundingBox` the three algorithms use: the identifier, the image
rectangle and the lidar points attached to the box. -/
structure BoundingBox where
  boxID : Int
  roi : Rect
  lidarPoints : List LidarPoint
  deriving DecidableEq

/-- Conversion of a floating value to `int`: truncation toward zero. -/
def truncToInt (q : ℚ) : Int := Int.tdiv q.num (q.den : Int)

/-! ## `computeTTCLidar` -/

/-- The comparator handed to `std::sort`: `pt1.x < pt2.x`. -/
def sort_lidar (pt1 pt2 : LidarPoint) : Bool := decide (pt1.x < pt2.x)

/-- The effect of `sort(begin, end, sort_lidar)`: the points in ascending order of `x`.
`std::sort` leaves the relative order of points with equal `x` open; `computeTTCLidar`
reads only the `x` of a sorted element, which is the same for every such order. An element
is placed before the first one that does not compare less than it (`sort_lidar b a` false). -/
def sortLidar (pts : List LidarPoint) : List LidarPoint :=
  pts.insertionSort (fun a b => sort_lidar b a = false)

/-- The index of the "10th percentile" point, `(int)size * 0.1` used as a vector index:
the product is a `double` and the index conversion truncates it, giving `size / 10`. -/
def nearIndex (pts : List LidarPoint) : Nat := pts.length / 10

/-- Ways in which a function of the file stops without a result. -/
inductive Failure where
  | outOfRange
  | assertionFailed
  deriving DecidableEq, Repr

/-- The body of `computeTTCLidar`, lines 155-170. Both vectors are sorted, the
element at `nearIndex` of each is read, the assertion `prev_x > curr_x` is checked and
`TTC = curr_x / speed` with `speed = delta_x / frameRate` is stored. -/
def computeTTCLidar (lidarPointsPrev lidarPointsCurr : List LidarPoint) (frameRate : ℚ) :
    Except Failure ℚ :=
  let sortedPrev := sortLidar lidarPointsPrev
  let sortedCurr := sortLidar lidarPointsCurr
  match sortedPrev[nearIndex sortedPrev]?, sortedCurr[nearIndex sortedCurr]? with
  | some prevpt, some currpt =>
    let prev_x := prevpt.x
    let curr_x := currpt.x
    if prev_x > curr_x then
      let delta_x := prev_x - curr_x
      let speed := delta_x / frameRate
      .ok (curr_x / speed)
    else .error Failure.assertionFailed
  | _, _ => .error Failure.outOfRange

/-- The formula of the specification, in its words: `deltaTime = 1 / frameRateHz`,
`speed = Δx / deltaTime`, `TTC = currNearDistance / speed`. -/
def specTTC (dPrev dCurr frameRateHz : ℚ) : ℚ :=
  let deltaTime := 1 / frameRateHz
  let speed := (dPrev - dCurr) / deltaTime
  dCurr / speed

/-- A lidar point at forward distance `x` (the other fields zero). -/
def atX (x : ℚ) : LidarPoint := ⟨x, 0, 0, 0⟩

/-- The point of `pts` with its forward distance divided by two. -/
def halveX (p : LidarPoint) : LidarPoint := { p with x := p.x / 2 }

/-- The "near distance" `computeTTCLidar` reads from a point set: the `x` of the element
at `nearIndex` of the sorted set, when that index is in range. -/
def nearDistance (pts : List LidarPoint) : Option ℚ :=
  ((sortLidar pts)[nearIndex (sortLidar pts)]?).map (fun p => p.x)

/-! ## `clusterLidarWithROI` -/

/-- The column vector `X` assembled from a lidar point: `(x, y, z, 1)`. -/
def homogeneous (p : LidarPoint) : Matrix (Fin 4) (Fin 1) ℚ :=
  fun i _ => ![p.x, p.y, p.z, 1] i

/-- Lines 24-33: the pixel of a lidar point. `Y = P_rect_xx * R_rect_xx * RT * X` is a
3x1 matrix; the two divisions read `Y.at<double>(0, 2)`, which on a single-column
matrix addresses the third element of the column, the depth `Y 2 0`. The quotients are
stored in the `int` fields of a `cv::Point`. With depth zero the C++ quotient is not a
finite number and its conversion is undefined; the embedding then follows `x / 0 = 0`.
The product is evaluated over exact rationals. Statements about the value of the pixel
assume a non-zero depth; statements that must hold for every pixel the C++ code may
obtain are made on `clusterLidarWithROIWith` below, which takes the pixel as given. -/
def projectLidarPoint (P_rect_xx : Matrix (Fin 3) (Fin 4) ℚ)
    (R_rect_xx RT : Matrix (Fin 4) (Fin 4) ℚ) (p : LidarPoint) : Point :=
  let X := homogeneous p
  let Y := P_rect_xx * R_rect_xx * RT * X
  { x := truncToInt (Y 0 0 / Y 2 0), y := truncToInt (Y 1 0 / Y 2 0) }

/-- Lines 38-42: the rectangle `smallerBox` of a region. The four right-hand sides are
floating values stored into the `int` fields of a `cv::Rect`. The right-hand sides are
evaluated here over exact rationals: the value agrees with the C++ value whenever the
`float` and `double` operations involved are exact (as for a shrink factor 1/2 and small
integers), and may differ from it by one where an operation rounds. Statements that must
hold for every rounding are made on `clusterLidarWithROIWith` below, which takes the
stored rectangle as given. -/
def smallerBox (shrinkFactor : ℚ) (roi : Rect) : Rect :=
  { x := truncToInt ((roi.x : ℚ) + shrinkFactor * (roi.width : ℚ) / 2)
    y := truncToInt ((roi.y : ℚ) + shrinkFactor * (roi.height : ℚ) / 2)
    width := truncToInt ((roi.width : ℚ) * (1 - shrinkFactor))
    height := truncToInt ((roi.height : ℚ) * (1 - shrinkFactor)) }

/-- Lines 35-49: the loop over the regions that collects `enclosingBoxes`. An iterator
into `boundingBoxes` is represented by its position; `i` is the position of the head of
the remaining list. -/
def enclosingBoxesFrom (shrinkFactor : ℚ) (pt : Point) : Nat → List BoundingBox → List Nat
  | _, [] => []
  | i, b :: bs =>
    if (smallerBox shrinkFactor b.roi).contains pt then
      i :: enclosingBoxesFrom shrinkFactor pt (i + 1) bs
    else enclosingBoxesFrom shrinkFactor pt (i + 1) bs

/-- The positions of all regions whose `smallerBox` contains the pixel, in list order. -/
def enclosingBoxes (boundingBoxes : List BoundingBox) (shrinkFactor : ℚ) (pt : Point) :
    List Nat :=
  enclosingBoxesFrom shrinkFactor pt 0 boundingBoxes

/-- Line 54: `it->lidarPoints.push_back(p)` for the region at position `i`. -/
def pushLidarPoint (p : LidarPoint) : Nat → List BoundingBox → List BoundingBox
  | _, [] => []
  | 0, b :: bs => { b with lidarPoints := b.lidarPoints ++ [p] } :: bs
  | i + 1, b :: bs => b :: pushLidarPoint p i bs

/-- Lines 23-55: the body of the loop over the lidar points, for one point. -/
def clusterPoint (shrinkFactor : ℚ) (P_rect_xx : Matrix (Fin 3) (Fin 4) ℚ)
    (R_rect_xx RT : Matrix (Fin 4) (Fin 4) ℚ) (boundingBoxes : List BoundingBox)
    (p : LidarPoint) : List BoundingBox :=
  let pt := projectLidarPoint P_rect_xx R_rect_xx RT p
  match enclosingBoxes boundingBoxes shrinkFactor pt with
  | [i] => pushLidarPoint p i boundingBoxes
  | _ => boundingBoxes

/-- The function `clusterLidarWithROI`: the region list after all lidar points have been
processed in input order. -/
def clusterLidarWithROI (boundingBoxes : List BoundingBox) (lidarPoints : List LidarPoint)
    (shrinkFactor : ℚ) (P_rect_xx : Matrix (Fin 3) (Fin 4) ℚ)
    (R_rect_xx RT : Matrix (Fin 4) (Fin 4) ℚ) : List BoundingBox :=
  lidarPoints.foldl (clusterPoint shrinkFactor P_rect_xx R_rect_xx RT) boundingBoxes

/-- The pixel lies inside the shrunk rectangle of the region at position `i`. -/
def insideShrunk (boundingBoxes : List BoundingBox) (shrinkFactor : ℚ) (pt : Point)
    (i : Nat) : Bool :=
  match boundingBoxes[i]? with
  | some b => (smallerBox shrinkFactor b.roi).contains pt
  | none => false

/-- The input points whose pixel is enclosed by the region at position `i` and by no
other region, in input order. -/
def assignedPoints (boundingBoxes : List BoundingBox) (lidarPoints : List LidarPoint)
    (shrinkFactor : ℚ) (P_rect_xx : Matrix (Fin 3) (Fin 4) ℚ)
    (R_rect_xx RT : Matrix (Fin 4) (Fin 4) ℚ) (i : Nat) : List LidarPoint :=
  lidarPoints.filter (fun p =>
    decide (enclosingBoxes boundingBoxes shrinkFactor
      (projectLidarPoint P_rect_xx R_rect_xx RT p) = [i]))

/-- Appending points to a region: the only change `clusterLidarWithROI` makes to a box. -/
def BoundingBox.withAppended (b : BoundingBox) (added : List LidarPoint) : BoundingBox :=
  { b with lidarPoints := b.lidarPoints ++ added }

/-- A projection matrix that maps `(x, y, z, 1)` to `(x, y, z)`. -/
def pinhole : Matrix (Fin 3) (Fin 4) ℚ := !![1, 0, 0, 0; 0, 1, 0, 0; 0, 0, 1, 0]

/-- A region list with the single region of the specification's example: id 0,
rectangle `(0, 0, 100, 100)`, no points yet. -/
def sampleBoxes : List BoundingBox := [⟨0, ⟨0, 0, 100, 100⟩, []⟩]

/-- Two overlapping regions, `(0, 0, 100, 100)` and `(20, 20, 100, 100)`. -/
def overlappingBoxes : List BoundingBox :=
  [⟨0, ⟨0, 0, 100, 100⟩, []⟩, ⟨1, ⟨20, 20, 100, 100⟩, []⟩]

/-- A lidar point that `pinhole` projects to the pixel `(50, 50)`. -/
def samplePoint : LidarPoint := ⟨50, 50, 1, 0⟩

/-- The loop of lines 35-49 with the stored rectangle taken as given: `shrunk roi` is the
`cv::Rect` that lines 38-42 store in `smallerBox` for the rectangle `roi`, whatever the
rounding of the floating-point operations yields. -/
def enclosingBoxesFromWith (shrunk : Rect → Rect) (pt : Point) :
    Nat → List BoundingBox → List Nat
  | _, [] => []
  | i, b :: bs =>
    if (shrunk b.roi).contains pt then i :: enclosingBoxesFromWith shrunk pt (i + 1) bs
    else enclosingBoxesFromWith shrunk pt (i + 1) bs

/-- The positions of all regions whose stored rectangle contains the pixel, in list order. -/
def enclosingBoxesWith (shrunk : Rect → Rect) (boundingBoxes : List BoundingBox)
    (pt : Point) : List Nat :=
  enclosingBoxesFromWith shrunk pt 0 boundingBoxes

/-- Lines 23-55, the body of the loop over the lidar points, with the two floating-point
computations taken as given: `pixelOf p` is the `cv::Point` that lines 24-33 store for the
point `p` (for whatever the rounding, and the conversion of a quotient by depth zero,
yield) and `shrunk roi` the `cv::Rect` that lines 38-42 store. -/
def clusterPointWith (pixelOf : LidarPoint → Point) (shrunk : Rect → Rect)
    (boundingBoxes : List BoundingBox) (p : LidarPoint) : List BoundingBox :=
  let pt := pixelOf p
  match enclosingBoxesWith shrunk boundingBoxes pt with
  | [i] => pushLidarPoint p i boundingBoxes
  | _ => boundingBoxes

/-- The function `clusterLidarWithROI` with the pixel of a point and the stored rectangle
of a region taken as given. `clusterLidarWithROI` is the instance in which both are
evaluated over exact rationals (`clusterLidarWithROI_eq_with`). -/
def clusterLidarWithROIWith (pixelOf : LidarPoint → Point) (shrunk : Rect → Rect)
    (boundingBoxes : List BoundingBox) (lidarPoints : List LidarPoint) : List BoundingBox :=
  lidarPoints.foldl (clusterPointWith pixelOf shrunk) boundingBoxes

/-- The pixel lies inside the rectangle stored for the region at position `i`. -/
def insideStored (shrunk : Rect → Rect) (boundingBoxes : List BoundingBox) (pt : Point)
    (i : Nat) : Bool :=
  match boundingBoxes[i]? with
  | some b => (shrunk b.roi).contains pt
  | none => false

/-- The input points whose pixel is enclosed by the stored rectangle of the region at
position `i` and of no other region, in input order. -/
def assignedPointsWith (pixelOf : LidarPoint → Point) (shrunk : Rect → Rect)
    (boundingBoxes : List BoundingBox) (lidarPoints : List LidarPoint) (i : Nat) :
    List LidarPoint :=
  lidarPoints.filter (fun p =>
    decide (enclosingBoxesWith shrunk boundingBoxes (pixelOf p) = [i]))

/-- The shrunk rectangle in the words of the specification, without conversion to
integers: origin moved by `shrinkFactor * width / 2` and `shrinkFactor * height / 2`, size
`width * (1 - shrinkFactor)` by `height * (1 - shrinkFactor)`; the pixel lies inside it
(half-open, as for `cv::Rect`). -/
def exactShrunkContains (shrinkFactor : ℚ) (roi : Rect) (pt : Point) : Bool :=
  decide ((roi.x : ℚ) + shrinkFactor * (roi.width : ℚ) / 2 ≤ (pt.x : ℚ)) &&
    decide ((pt.x : ℚ) < (roi.x : ℚ) + shrinkFactor * (roi.width : ℚ) / 2
      + (roi.width : ℚ) * (1 - shrinkFactor)) &&
    decide ((roi.y : ℚ) + shrinkFactor * (roi.height : ℚ) / 2 ≤ (pt.y : ℚ)) &&
    decide ((pt.y : ℚ) < (roi.y : ℚ) + shrinkFactor * (roi.height : ℚ) / 2
      + (roi.height : ℚ) * (1 - shrinkFactor))

/-- A region list with one small region: id 0, rectangle `(0, 0, 3, 3)`, no points. -/
def smallBoxes : List BoundingBox := [⟨0, ⟨0, 0, 3, 3⟩, []⟩]

/-- A lidar point that `pinhole` projects to the pixel `(1, 1)`. -/
def pointAtOneOne : LidarPoint := ⟨1, 1, 1, 0⟩

/-- A lidar point that `pinhole` projects to the pixel `(0, 0)`. -/
def pointAtOrigin : LidarPoint := ⟨0, 0, 1, 0⟩

/-! ## `matchBoundingBoxes` -/

/-- The field of `cv::KeyPoint` that is used: the pixel position `pt`, as the
`cv::Rect::contains` call receives it. -/
structure KeyPoint where
  pt : Point
  deriving DecidableEq, Repr

/-- A keypoint correspondence, `cv::DMatch`: `queryIdx` indexes the keypoints of the
previous frame, `trainIdx` those of the current frame. -/
structure DMatch where
  queryIdx : Int
  trainIdx : Int
  deriving DecidableEq, Repr

/-- The fields of `DataFrame` that are used: keypoints and detection regions. -/
structure DataFrame where
  keypoints : List KeyPoint
  boundingBoxes : List BoundingBox

/-- Reading `v[i]` with an `int` index: defined when `0 ≤ i < v.size()`. -/
def vecGet? {α : Type} (v : List α) (i : Int) : Option α :=
  if 0 ≤ i then v[i.toNat]? else none

/-- The counting matrix `counter`, a `vector<vector<int>>`. -/
abbrev Counter := List (List Int)

/-- The result map `bbBestMatches`, a `std::map<int, int>`, as a list of entries. -/
abbrev BestMatches := List (Int × Int)

/-- The value stored under a key, if the map has an entry for it. -/
def BestMatches.find? (m : BestMatches) (k : Int) : Option Int :=
  (List.find? (fun e => e.1 == k) m).map (fun e => e.2)

/-- The call `std::map::insert`: an entry is added only when the key has none yet. -/
def BestMatches.insert (m : BestMatches) (k v : Int) : BestMatches :=
  match m.find? k with
  | some _ => m
  | none => m ++ [(k, v)]

/-- The initial matrix of lines 192-193: `rows` rows of `cols` zeros. -/
def zeroCounter (rows cols : Nat) : Counter :=
  List.replicate rows (List.replicate cols 0)

/-- The cell `counter[i][j]`, when both indices are in range. -/
def Counter.cell (counter : Counter) (i j : Int) : Option Int :=
  (vecGet? counter i).bind (fun row => vecGet? row j)

/-- Line 230: `counter[i][j]++`, defined when both indices are in range. -/
def Counter.increment (counter : Counter) (i j : Int) : Option Counter :=
  match vecGet? counter i with
  | none => none
  | some row =>
    match vecGet? row j with
    | none => none
    | some v => some (counter.set i.toNat (row.set j.toNat (v + 1)))

/-- The loops of lines 205-210 and 217-222: the first region, in list order, whose
rectangle contains the pixel.

Modelled from the spec: `BoundingBox::valid()` and the default constructor of
`BoundingBox` are declared in `dataStructures.h`, which is not among the sources. The
specification describes a zero-initialised sentinel box with a validity check that detects
"no containing region found": `none` stands for the sentinel that fails `valid()`, and
`some b` for a box copied from the region list, which passes it. -/
def firstContaining (boundingBoxes : List BoundingBox) (pt : Point) : Option BoundingBox :=
  boundingBoxes.find? (fun bbox => bbox.roi.contains pt)

/-- How one pass through a loop body ends: the loop goes on to the next element, or it is
left by `break`. -/
inductive LoopStep (σ : Type) where
  | next (s : σ)
  | exit (s : σ)

/-- Lines 197-230: the body of the loop over the correspondences, for one correspondence.
Both keypoints are read first; a keypoint that lies in no region leaves the loop by
`break`; otherwise one cell of the matrix goes up by one. -/
def voteCorrespondence (prevFrame currFrame : DataFrame) (counter : Counter) (m : DMatch) :
    Except Failure (LoopStep Counter) :=
  match vecGet? prevFrame.keypoints m.queryIdx, vecGet? currFrame.keypoints m.trainIdx with
  | some prevkeypt, some curkeypt =>
    match firstContaining prevFrame.boundingBoxes prevkeypt.pt with
    | none => .ok (.exit counter)
    | some prev_bbox =>
      match firstContaining currFrame.boundingBoxes curkeypt.pt with
      | none => .ok (.exit counter)
      | some curr_bbox =>
        match counter.increment prev_bbox.boxID curr_bbox.boxID with
        | some counter' => .ok (.next counter')
        | none => .error Failure.outOfRange
  | _, _ => .error Failure.outOfRange

/-- Lines 196-231: the voting loop over the correspondences, in input order. -/
def voteLoop (prevFrame currFrame : DataFrame) : List DMatch → Counter → Except Failure Counter
  | [], counter => .ok counter
  | m :: rest, counter =>
    match voteCorrespondence prevFrame currFrame counter m with
    | .error e => .error e
    | .ok (.exit counter') => .ok counter'
    | .ok (.next counter') => voteLoop prevFrame currFrame rest counter'

/-- The scan of `std::max_element` after its first element: `best` at position `bestIdx`
is the largest value so far, `idx` is the position of the head of the remaining range. A
later element replaces the best one only when it is strictly larger. -/
def maxElementFrom : Int → Nat → Nat → List Int → Nat
  | _, bestIdx, _, [] => bestIdx
  | best, bestIdx, idx, v :: vs =>
    if best < v then maxElementFrom v idx (idx + 1) vs
    else maxElementFrom best bestIdx (idx + 1) vs

/-- Lines 235-236: `std::distance(begin, std::max_element(begin, end))`, the position of
the first largest element; on an empty range `max_element` returns `end`, at distance 0. -/
def max_element : List Int → Nat
  | [] => 0
  | v :: vs => maxElementFrom v 0 1 vs

/-- Lines 233-240: the loop over the previous-frame regions that fills `bbBestMatches`. -/
def selectBest (counter : Counter) : List BoundingBox → BestMatches → Except Failure BestMatches
  | [], bbBestMatches => .ok bbBestMatches
  | bbox :: rest, bbBestMatches =>
    match vecGet? counter bbox.boxID with
    | none => .error Failure.outOfRange
    | some frequencies =>
      let arg_max : Int := (max_element frequencies : Nat)
      match vecGet? frequencies arg_max with
      | none => .error Failure.outOfRange
      | some f =>
        if f > 1 then selectBest counter rest (bbBestMatches.insert bbox.boxID arg_max)
        else selectBest counter rest bbBestMatches

/-- The function `matchBoundingBoxes`: the contents of `bbBestMatches` on return. The
parameter `matches` of the source is named `kptMatches` here. -/
def matchBoundingBoxes (kptMatches : List DMatch) (bbBestMatches : BestMatches)
    (prevFrame currFrame : DataFrame) : Except Failure BestMatches :=
  let counter := zeroCounter prevFrame.boundingBoxes.length currFrame.boundingBoxes.length
  match voteLoop prevFrame currFrame kptMatches counter with
  | .error e => .error e
  | .ok counter' => selectBest counter' prevFrame.boundingBoxes bbBestMatches

/-- Every region's id equals its position in the region list. -/
def IdsArePositions (boundingBoxes : List BoundingBox) : Prop :=
  ∀ (i : Nat) (b : BoundingBox), boundingBoxes[i]? = some b → b.boxID = (i : Int)

/-- Column `c` is the smallest column index holding the maximum count of the row. -/
def IsFirstMaxColumn (row : List Int) (c : Nat) : Prop :=
  ∃ v, row[c]? = some v ∧ (∀ (j : Nat) (w : Int), row[j]? = some w → w ≤ v) ∧
    ∀ (j : Nat) (w : Int), j < c → row[j]? = some w → w < v

/-- The matrix has `rows` rows of `cols` columns each. -/
def Counter.HasDims (counter : Counter) (rows cols : Nat) : Prop :=
  counter.length = rows ∧ ∀ row ∈ counter, row.length = cols

/-- The entry that the selection loop stores for the row with index `p`: the position
returned by `max_element` when the count there exceeds 1. -/
def rowChoice (counter : Counter) (p : Int) : Option Int :=
  match vecGet? counter p with
  | none => none
  | some frequencies =>
    match vecGet? frequencies (max_element frequencies : Nat) with
    | none => none
    | some f => if f > 1 then some (max_element frequencies : Nat) else none

/-- Both keypoints of a correspondence exist and each lies in a region of its frame. -/
def resolves (prevFrame currFrame : DataFrame) (m : DMatch) : Bool :=
  match vecGet? prevFrame.keypoints m.queryIdx, vecGet? currFrame.keypoints m.trainIdx with
  | some prevkeypt, some curkeypt =>
    (firstContaining prevFrame.boundingBoxes prevkeypt.pt).isSome &&
      (firstContaining currFrame.boundingBoxes curkeypt.pt).isSome
  | _, _ => false

/-- A box without lidar points. -/
def emptyBox (boxID : Int) (roi : Rect) : BoundingBox := ⟨boxID, roi, []⟩

/-- Sample previous frame: one region `(0, 0, 100, 100)` with id 0; keypoint 0 at
`(50, 50)` inside it and keypoint 1 at `(200, 200)` outside every region. -/
def samplePrevFrame : DataFrame :=
  { keypoints := [⟨⟨50, 50⟩⟩, ⟨⟨200, 200⟩⟩]
    boundingBoxes := [emptyBox 0 ⟨0, 0, 100, 100⟩] }

/-- Sample current frame: three disjoint regions with ids 0, 1, 2; keypoint 0 at `(45, 5)`
inside region 2 and keypoint 1 at `(200, 200)` outside every region. -/
def sampleCurrFrame : DataFrame :=
  { keypoints := [⟨⟨45, 5⟩⟩, ⟨⟨200, 200⟩⟩]
    boundingBoxes := [emptyBox 0 ⟨0, 0, 10, 10⟩, emptyBox 1 ⟨20, 0, 10, 10⟩,
      emptyBox 2 ⟨40, 0, 10, 10⟩] }

/-- A frame with keypoints and no region. -/
def noRegionFrame : DataFrame :=
  { keypoints := [⟨⟨45, 5⟩⟩], boundingBoxes := [] }

/-- A frame in which two regions, ids 0 and 1, contain keypoint 0. -/
def overlapFrame : DataFrame :=
  { keypoints := [⟨⟨50, 50⟩⟩]
    boundingBoxes := [emptyBox 0 ⟨0, 0, 100, 100⟩, emptyBox 1 ⟨20, 20, 100, 100⟩] }

/-- A frame whose single region carries the id 5. -/
def sparseIdFrame : DataFrame :=
  { keypoints := [⟨⟨50, 50⟩⟩], boundingBoxes := [emptyBox 5 ⟨0, 0, 100, 100⟩] }

/-- Every correspondence indexes an existing keypoint in each frame. -/
def ValidIndices (prevFrame currFrame : DataFrame) (kptMatches : List DMatch) : Prop :=
  ∀ m ∈ kptMatches,
    (0 ≤ m.queryIdx ∧ m.queryIdx < (prevFrame.keypoints.length : Int)) ∧
      (0 ≤ m.trainIdx ∧ m.trainIdx < (currFrame.keypoints.length : Int))

/-- A previous frame with two disjoint regions, ids 0 and 1; keypoint 0 lies in region 0
and keypoint 1 in region 1. -/
def twoRegionPrevFrame : DataFrame :=
  { keypoints := [⟨⟨5, 5⟩⟩, ⟨⟨25, 5⟩⟩]
    boundingBoxes := [emptyBox 0 ⟨0, 0, 10, 10⟩, emptyBox 1 ⟨20, 0, 10, 10⟩] }

/-- A current frame with one region, id 0, containing its only keypoint. -/
def oneRegionCurrFrame : DataFrame :=
  { keypoints := [⟨⟨50, 50⟩⟩], boundingBoxes := [emptyBox 0 ⟨0, 0, 100, 100⟩] }

/-- A frame in which two regions, ids 0 and 1, both contain keypoint 0 at `(50, 50)`, and
keypoint 1 at `(500, 500)` lies in no region. -/
def overlapOutsideFrame : DataFrame :=
  { keypoints := [⟨⟨50, 50⟩⟩, ⟨⟨500, 500⟩⟩]
    boundingBoxes := [emptyBox 0 ⟨0, 0, 100, 100⟩, emptyBox 1 ⟨20, 20, 100, 100⟩] }

/-! ## `computeTTCLidar`: properties -/

theorem length_sortLidar (pts : List LidarPoint) : (sortLidar pts).length = pts.length := by
  unfold sortLidar
  exact List.length_insertionSort _ pts

theorem nearIndex_sortLidar (pts : List LidarPoint) :
    nearIndex (sortLidar pts) = nearIndex pts := by
  simp [nearIndex, length_sortLidar]

theorem nearIndex_lt_of_ne_nil {pts : List LidarPoint} (h : pts ≠ []) :
    nearIndex pts < pts.length := by
  have hpos : 0 < pts.length := List.length_pos.mpr h
  unfold nearIndex
  omega

theorem nearDistance_isSome_of_ne_nil {pts : List LidarPoint} (h : pts ≠ []) :
    ∃ d, nearDistance pts = some d := by
  have hlt : nearIndex (sortLidar pts) < (sortLidar pts).length := by
    rw [nearIndex_sortLidar, length_sortLidar]
    exact nearIndex_lt_of_ne_nil h
  refine ⟨((sortLidar pts)[nearIndex (sortLidar pts)]).x, ?_⟩
  simp [nearDistance, List.getElem?_eq_getElem hlt]

/-- What `computeTTCLidar` computes, in terms of the two near distances. -/
theorem computeTTCLidar_of_nearDistance {prev curr : List LidarPoint} {dPrev dCurr : ℚ}
    (frameRate : ℚ) (hp : nearDistance prev = some dPrev) (hc : nearDistance curr = some dCurr) :
    computeTTCLidar prev curr frameRate =
      if dPrev > dCurr then .ok (dCurr / ((dPrev - dCurr) / frameRate))
      else .error Failure.assertionFailed := by
  unfold nearDistance at hp hc
  unfold computeTTCLidar
  cases hp1 : (sortLidar prev)[nearIndex (sortLidar prev)]? with
  | none => simp [hp1] at hp
  | some a =>
    cases hc1 : (sortLidar curr)[nearIndex (sortLidar curr)]? with
    | none => simp [hc1] at hc
    | some b =>
      simp only [hp1, hc1, Option.map_some', Option.some.injEq] at hp hc
      subst hp
      subst hc
      simp only [hp1, hc1]

theorem sortLidar_map_halveX (pts : List LidarPoint) :
    sortLidar (pts.map halveX) = (sortLidar pts).map halveX := by
  unfold sortLidar
  symm
  apply List.map_insertionSort
  intro a _ b _
  simp only [sort_lidar, halveX, decide_eq_false_iff_not, not_lt]
  constructor
  · intro h
    linarith
  · intro h
    linarith

theorem nearDistance_map_halveX (pts : List LidarPoint) :
    nearDistance (pts.map halveX) = (nearDistance pts).map (fun d => d / 2) := by
  unfold nearDistance
  rw [sortLidar_map_halveX]
  simp only [nearIndex, List.length_map, List.getElem?_map, Option.map_map]
  rfl

/-- The near distances of the two sample sets of the specification are 8 and 6. -/
theorem nearDistance_samples :
    nearDistance [atX 8, atX 9, atX 10] = some 8 ∧ nearDistance [atX 6, atX 7, atX 8] = some 6 := by
  constructor <;>
    norm_num [nearDistance, sortLidar, nearIndex, atX, sort_lidar, List.insertionSort,
      List.orderedInsert]

/-- C1. On the sample of the specification (previous x-values 8, 9, 10, current x-values
6, 7, 8, frame rate 10) `computeTTCLidar` returns 30: it divides the closed distance 2 by
the frame rate (speed 0.2) where the specification divides it by the frame interval
(speed 20, TTC 0.3). -/
theorem computeTTCLidar_sample_divides_by_frameRate :
    computeTTCLidar [atX 8, atX 9, atX 10] [atX 6, atX 7, atX 8] 10 = .ok 30 ∧
      specTTC 8 6 10 = 3 / 10 ∧
      computeTTCLidar [atX 8, atX 9, atX 10] [atX 6, atX 7, atX 8] 10 ≠ .ok (specTTC 8 6 10) := by
  have hv : computeTTCLidar [atX 8, atX 9, atX 10] [atX 6, atX 7, atX 8] 10 = .ok 30 := by
    rw [computeTTCLidar_of_nearDistance 10 nearDistance_samples.1 nearDistance_samples.2]
    norm_num
  have hs : specTTC 8 6 10 = 3 / 10 := by
    simp only [specTTC]
    norm_num
  refine ⟨hv, hs, ?_⟩
  rw [hv, hs]
  intro h
  injection h with h
  norm_num at h

/-- C6 (as stated, refuted). With previous x-values 6, 7, 8 and current x-values 8, 9, 10
(previous near distance 6 not above the current near distance 8) and frame rate 10,
`computeTTCLidar` returns no result at all. -/
theorem computeTTCLidar_receding_no_result :
    nearDistance [atX 6, atX 7, atX 8] = some 6 ∧ nearDistance [atX 8, atX 9, atX 10] = some 8 ∧
      ¬ ∃ ttc, computeTTCLidar [atX 6, atX 7, atX 8] [atX 8, atX 9, atX 10] 10 = .ok ttc := by
  refine ⟨nearDistance_samples.2, nearDistance_samples.1, ?_⟩
  rw [computeTTCLidar_of_nearDistance 10 nearDistance_samples.2 nearDistance_samples.1]
  rintro ⟨ttc, h⟩
  rw [if_neg (by norm_num)] at h
  cases h

/-- C6 (amended). For point sets with near distances `dPrev` and `dCurr` (both sets are then
non-empty) such that the previous near distance is at most the current one, and every frame
rate, the assertion `prev_x > curr_x` of `computeTTCLidar` fails: the function stops there
and stores no TTC. -/
theorem computeTTCLidar_not_approaching_asserts (prev curr : List LidarPoint) (frameRate : ℚ)
    (dPrev dCurr : ℚ)
    (hp : nearDistance prev = some dPrev) (hc : nearDistance curr = some dCurr)
    (hle : dPrev ≤ dCurr) :
    computeTTCLidar prev curr frameRate = .error Failure.assertionFailed := by
  rw [computeTTCLidar_of_nearDistance frameRate hp hc]
  simp [not_lt.mpr hle]

theorem computeTTCLidar_not_approaching_asserts_witness :
    computeTTCLidar [atX 6, atX 7, atX 8] [atX 8, atX 9, atX 10] 10
      = .error Failure.assertionFailed :=
  computeTTCLidar_not_approaching_asserts [atX 6, atX 7, atX 8] [atX 8, atX 9, atX 10] 10
    6 8 nearDistance_samples.2 nearDistance_samples.1 (by norm_num)

/-- The formula of the specification itself is halved, not preserved, when every distance
is halved and the frame rate is doubled. -/
theorem specTTC_halved_doubled (dPrev dCurr f : ℚ) :
    specTTC (dPrev / 2) (dCurr / 2) (2 * f) = specTTC dPrev dCurr f / 2 := by
  simp only [specTTC]
  by_cases hf : f = 0
  · subst hf
    simp
  by_cases hd : dPrev - dCurr = 0
  · have : dPrev / 2 - dCurr / 2 = 0 := by linarith
    rw [hd, this]
    simp
  · have h2 : dPrev / 2 - dCurr / 2 = (dPrev - dCurr) / 2 := by ring
    rw [h2]
    field_simp
    left
    ring

/-- C9 (as stated, refuted). On the sample of the specification, halving every x-value
and doubling the frame rate from 10 to 20 changes the result of `computeTTCLidar` from 30
to 60. -/
theorem computeTTCLidar_halved_doubled_differs :
    computeTTCLidar [atX 8, atX 9, atX 10] [atX 6, atX 7, atX 8] 10 = .ok 30 ∧
      computeTTCLidar ([atX 8, atX 9, atX 10].map halveX) ([atX 6, atX 7, atX 8].map halveX)
        (2 * 10) = .ok 60 ∧
      computeTTCLidar ([atX 8, atX 9, atX 10].map halveX) ([atX 6, atX 7, atX 8].map halveX)
        (2 * 10) ≠ computeTTCLidar [atX 8, atX 9, atX 10] [atX 6, atX 7, atX 8] 10 := by
  have h1 : computeTTCLidar [atX 8, atX 9, atX 10] [atX 6, atX 7, atX 8] 10 = .ok 30 := by
    rw [computeTTCLidar_of_nearDistance 10 nearDistance_samples.1 nearDistance_samples.2]
    norm_num
  have hp : nearDistance ([atX 8, atX 9, atX 10].map halveX) = some 4 := by
    rw [nearDistance_map_halveX, nearDistance_samples.1]
    norm_num
  have hc : nearDistance ([atX 6, atX 7, atX 8].map halveX) = some 3 := by
    rw [nearDistance_map_halveX, nearDistance_samples.2]
    norm_num
  have h2 : computeTTCLidar ([atX 8, atX 9, atX 10].map halveX)
      ([atX 6, atX 7, atX 8].map halveX) (2 * 10) = .ok 60 := by
    rw [computeTTCLidar_of_nearDistance (2 * 10) hp hc]
    norm_num
  refine ⟨h1, h2, ?_⟩
  rw [h1, h2]
  intro h
  injection h with h
  norm_num at h

/-- C9 (amended). For all point sets and every frame rate, `computeTTCLidar` applied to the
two sets with every x-value halved, at the same frame rate, returns the same result as on
the original sets: the TTC does not depend on the unit of distance. -/
theorem computeTTCLidar_halveX_invariant (prev curr : List LidarPoint) (frameRate : ℚ) :
    computeTTCLidar (prev.map halveX) (curr.map halveX) frameRate
      = computeTTCLidar prev curr frameRate := by
  unfold computeTTCLidar
  simp only [sortLidar_map_halveX, nearIndex, List.length_map, List.getElem?_map]
  cases (sortLidar prev)[(sortLidar prev).length / 10]? with
  | none => rfl
  | some a =>
    cases (sortLidar curr)[(sortLidar curr).length / 10]? with
    | none => rfl
    | some b =>
      simp only [Option.map_some', halveX]
      by_cases hab : a.x > b.x
      · have hab2 : a.x / 2 > b.x / 2 := by linarith
        rw [if_pos hab, if_pos hab2]
        congr 1
        rw [← sub_div, div_right_comm (a.x - b.x) 2 frameRate]
        exact div_div_div_cancel_right₀ (by norm_num) _ _
      · have hab2 : ¬ a.x / 2 > b.x / 2 := by
          intro h
          exact hab (by linarith)
        rw [if_neg hab, if_neg hab2]

/-! ### The near distance as an order statistic -/

theorem map_x_sortLidar (pts : List LidarPoint) :
    (sortLidar pts).map (fun p => p.x)
      = (pts.map (fun p => p.x)).insertionSort (fun a b => a ≤ b) := by
  unfold sortLidar
  apply List.map_insertionSort
  intro a _ b _
  simp [sort_lidar]

theorem nearDistance_eq_sorted_xs (pts : List LidarPoint) :
    nearDistance pts
      = ((pts.map (fun p => p.x)).insertionSort (fun a b => a ≤ b))[pts.length / 10]? := by
  unfold nearDistance
  rw [← map_x_sortLidar, List.getElem?_map, nearIndex, length_sortLidar]

theorem nearDistance_eq_none_iff (pts : List LidarPoint) :
    nearDistance pts = none ↔ pts = [] := by
  constructor
  · intro h
    by_contra hne
    obtain ⟨d, hd⟩ := nearDistance_isSome_of_ne_nil hne
    rw [hd] at h
    cases h
  · intro h
    subst h
    rfl

/-- The result of `computeTTCLidar` as a function of the two near distances. -/
theorem computeTTCLidar_eq (prev curr : List LidarPoint) (frameRate : ℚ) :
    computeTTCLidar prev curr frameRate =
      match nearDistance prev, nearDistance curr with
      | some dPrev, some dCurr =>
        if dPrev > dCurr then .ok (dCurr / ((dPrev - dCurr) / frameRate))
        else .error Failure.assertionFailed
      | _, _ => .error Failure.outOfRange := by
  cases hp : nearDistance prev with
  | none =>
    unfold nearDistance at hp
    unfold computeTTCLidar
    cases hp1 : (sortLidar prev)[nearIndex (sortLidar prev)]? with
    | none => simp only [hp1]
    | some a => simp [hp1] at hp
  | some a =>
    cases hc : nearDistance curr with
    | none =>
      unfold nearDistance at hc
      unfold computeTTCLidar
      cases hc1 : (sortLidar curr)[nearIndex (sortLidar curr)]? with
      | none =>
        simp only [hc1]
        split <;> first | rfl | simp_all
      | some b => simp [hc1] at hc
    | some b => exact computeTTCLidar_of_nearDistance frameRate hp hc

theorem nearDistance_congr {pts pts' : List LidarPoint}
    (h : (pts'.map (fun p => p.x)).Perm (pts.map (fun p => p.x))) :
    nearDistance pts' = nearDistance pts := by
  have hlen : pts'.length = pts.length := by
    have := h.length_eq
    simpa using this
  have hsort : (pts'.map (fun p => p.x)).insertionSort (fun a b => a ≤ b)
      = (pts.map (fun p => p.x)).insertionSort (fun a b => a ≤ b) :=
    List.eq_of_perm_of_sorted
      (((List.perm_insertionSort _ _).trans h).trans (List.perm_insertionSort _ _).symm)
      (List.sorted_insertionSort _ _) (List.sorted_insertionSort _ _)
  rw [nearDistance_eq_sorted_xs, nearDistance_eq_sorted_xs, hsort, hlen]

/-- C15. For all point sets and every frame rate, the result of `computeTTCLidar` (the TTC,
or the failure of the assertion `prev_x > curr_x`) depends only on the multiset of x-values
of each set: when the x-values of `prev'` are a permutation of those of `prev` and the
x-values of `curr'` a permutation of those of `curr` (as they are when the sets themselves
are permutations), the results are equal. -/
theorem computeTTCLidar_perm_invariant (prev prev' curr curr' : List LidarPoint)
    (frameRate : ℚ)
    (hp : (prev'.map (fun p => p.x)).Perm (prev.map (fun p => p.x)))
    (hc : (curr'.map (fun p => p.x)).Perm (curr.map (fun p => p.x))) :
    computeTTCLidar prev' curr' frameRate = computeTTCLidar prev curr frameRate := by
  rw [computeTTCLidar_eq, computeTTCLidar_eq, nearDistance_congr hp, nearDistance_congr hc]

theorem computeTTCLidar_perm_invariant_witness :
    computeTTCLidar [atX 8, atX 9, atX 10].reverse [atX 6, atX 7, atX 8].reverse 10
      = computeTTCLidar [atX 8, atX 9, atX 10] [atX 6, atX 7, atX 8] 10 :=
  computeTTCLidar_perm_invariant [atX 8, atX 9, atX 10] [atX 8, atX 9, atX 10].reverse
    [atX 6, atX 7, atX 8] [atX 6, atX 7, atX 8].reverse 10
    ((List.reverse_perm _).map _) ((List.reverse_perm _).map _)

/-- C18. For every point set, the index `n / 10` that `computeTTCLidar` reads from the
sorted set is below its size if and only if the set is non-empty; and `computeTTCLidar`
reads out of range if and only if one of the two point sets is empty (with both non-empty
no read is out of range, with an empty set the read at index 0 is). -/
theorem computeTTCLidar_reads_in_range_iff (prev curr : List LidarPoint) (frameRate : ℚ) :
    (∀ pts : List LidarPoint,
        nearIndex (sortLidar pts) < (sortLidar pts).length ↔ pts ≠ []) ∧
      (nearIndex (sortLidar ([] : List LidarPoint)) = 0 ∧
        (sortLidar ([] : List LidarPoint))[0]? = none) ∧
      (computeTTCLidar prev curr frameRate = .error Failure.outOfRange
        ↔ prev = [] ∨ curr = []) := by
  refine ⟨?_, ⟨rfl, rfl⟩, ?_⟩
  · intro pts
    rw [nearIndex_sortLidar, length_sortLidar]
    constructor
    · intro h hnil
      subst hnil
      simp [nearIndex] at h
    · exact nearIndex_lt_of_ne_nil
  · rw [computeTTCLidar_eq]
    constructor
    · intro h
      cases hp : nearDistance prev with
      | none => exact Or.inl ((nearDistance_eq_none_iff prev).mp hp)
      | some a =>
        cases hc : nearDistance curr with
        | none => exact Or.inr ((nearDistance_eq_none_iff curr).mp hc)
        | some b =>
          rw [hp, hc] at h
          simp only at h
          split at h <;> cases h
    · rintro (h | h)
      · rw [(nearDistance_eq_none_iff prev).mpr h]
      · rw [(nearDistance_eq_none_iff curr).mpr h]
        cases nearDistance prev <;> rfl

/-! ## `clusterLidarWithROI`: properties -/

theorem truncToInt_intCast (n : Int) : truncToInt (n : ℚ) = n := by
  simp [truncToInt]

theorem mem_enclosingBoxesFrom (s : ℚ) (pt : Point) (bs : List BoundingBox) :
    ∀ (k i : Nat), i ∈ enclosingBoxesFrom s pt k bs ↔
      k ≤ i ∧ insideShrunk bs s pt (i - k) = true := by
  induction bs with
  | nil => intro k i; simp [enclosingBoxesFrom, insideShrunk]
  | cons b bs ih =>
    intro k i
    unfold enclosingBoxesFrom
    by_cases hb : (smallerBox s b.roi).contains pt = true
    · rw [if_pos hb, List.mem_cons, ih]
      constructor
      · rintro (h | ⟨h1, h2⟩)
        · subst h
          simp [insideShrunk, hb]
        · refine ⟨by omega, ?_⟩
          obtain ⟨j, hj⟩ : ∃ j, i - k = j + 1 := ⟨i - k - 1, by omega⟩
          have hj2 : i - (k + 1) = j := by omega
          rw [hj2] at h2
          rw [hj]
          simpa [insideShrunk] using h2
      · rintro ⟨h1, h2⟩
        by_cases hik : i = k
        · exact Or.inl hik
        · right
          refine ⟨by omega, ?_⟩
          obtain ⟨j, hj⟩ : ∃ j, i - k = j + 1 := ⟨i - k - 1, by omega⟩
          have hj2 : i - (k + 1) = j := by omega
          rw [hj] at h2
          rw [hj2]
          simpa [insideShrunk] using h2
    · rw [if_neg hb, ih]
      constructor
      · rintro ⟨h1, h2⟩
        refine ⟨by omega, ?_⟩
        obtain ⟨j, hj⟩ : ∃ j, i - k = j + 1 := ⟨i - k - 1, by omega⟩
        have hj2 : i - (k + 1) = j := by omega
        rw [hj2] at h2
        rw [hj]
        simpa [insideShrunk] using h2
      · rintro ⟨h1, h2⟩
        have hik : i ≠ k := by
          intro h
          subst h
          simp [insideShrunk] at h2
          exact hb h2
        refine ⟨by omega, ?_⟩
        obtain ⟨j, hj⟩ : ∃ j, i - k = j + 1 := ⟨i - k - 1, by omega⟩
        have hj2 : i - (k + 1) = j := by omega
        rw [hj] at h2
        rw [hj2]
        simpa [insideShrunk] using h2

theorem mem_enclosingBoxes (bs : List BoundingBox) (s : ℚ) (pt : Point) (i : Nat) :
    i ∈ enclosingBoxes bs s pt ↔ insideShrunk bs s pt i = true := by
  simp [enclosingBoxes, mem_enclosingBoxesFrom]

theorem enclosingBoxesFrom_sorted (s : ℚ) (pt : Point) (bs : List BoundingBox) :
    ∀ k, (enclosingBoxesFrom s pt k bs).Pairwise (fun a b => a < b) := by
  induction bs with
  | nil => intro k; simp [enclosingBoxesFrom]
  | cons b bs ih =>
    intro k
    unfold enclosingBoxesFrom
    split
    · refine List.Pairwise.cons ?_ (ih (k + 1))
      intro a ha
      have := (mem_enclosingBoxesFrom s pt bs (k + 1) a).mp ha
      omega
    · exact ih (k + 1)

theorem enclosingBoxes_nodup (bs : List BoundingBox) (s : ℚ) (pt : Point) :
    (enclosingBoxes bs s pt).Nodup := by
  unfold enclosingBoxes
  exact (enclosingBoxesFrom_sorted s pt bs 0).imp (fun h => Nat.ne_of_lt h)

/-- The collected list is the singleton `[r]` exactly when `r` is the one region whose
shrunk rectangle contains the pixel. -/
theorem enclosingBoxes_eq_singleton_iff (bs : List BoundingBox) (s : ℚ) (pt : Point) (r : Nat) :
    enclosingBoxes bs s pt = [r] ↔
      (insideShrunk bs s pt r = true ∧ ∀ j, insideShrunk bs s pt j = true → j = r) := by
  constructor
  · intro h
    refine ⟨(mem_enclosingBoxes bs s pt r).mp (by simp [h]), ?_⟩
    intro j hj
    have := (mem_enclosingBoxes bs s pt j).mpr hj
    simpa [h] using this
  · rintro ⟨h1, h2⟩
    have hperm : (enclosingBoxes bs s pt).Perm [r] := by
      rw [List.perm_ext_iff_of_nodup (enclosingBoxes_nodup bs s pt) (List.nodup_singleton r)]
      intro a
      rw [mem_enclosingBoxes, List.mem_singleton]
      constructor
      · exact h2 a
      · intro h
        subst h
        exact h1
    exact List.perm_singleton.mp hperm

theorem BoundingBox.withAppended_nil (b : BoundingBox) : b.withAppended [] = b := by
  simp [BoundingBox.withAppended]

theorem BoundingBox.withAppended_withAppended (b : BoundingBox) (l₁ l₂ : List LidarPoint) :
    (b.withAppended l₁).withAppended l₂ = b.withAppended (l₁ ++ l₂) := by
  simp [BoundingBox.withAppended]

theorem getElem?_pushLidarPoint (p : LidarPoint) (bs : List BoundingBox) :
    ∀ (i j : Nat), (pushLidarPoint p i bs)[j]? =
      (bs[j]?).map (fun b => b.withAppended (if j = i then [p] else [])) := by
  induction bs with
  | nil => intro i j; cases i <;> simp [pushLidarPoint]
  | cons b bs ih =>
    intro i j
    cases i with
    | zero =>
      cases j with
      | zero => simp [pushLidarPoint, BoundingBox.withAppended]
      | succ j => simp [pushLidarPoint, BoundingBox.withAppended_nil]
    | succ i =>
      cases j with
      | zero => simp [pushLidarPoint, BoundingBox.withAppended_nil]
      | succ j => simp [pushLidarPoint, ih i j]

theorem enclosingBoxesFrom_congr (s : ℚ) (pt : Point) :
    ∀ (bs bs' : List BoundingBox) (k : Nat), bs'.map (fun b => b.roi) = bs.map (fun b => b.roi) →
      enclosingBoxesFrom s pt k bs' = enclosingBoxesFrom s pt k bs := by
  intro bs
  induction bs with
  | nil =>
    intro bs' k h
    cases bs' with
    | nil => rfl
    | cons _ _ => simp at h
  | cons b bs ih =>
    intro bs' k h
    cases bs' with
    | nil => simp at h
    | cons b' bs' =>
      simp only [List.map_cons, List.cons.injEq] at h
      simp only [enclosingBoxesFrom, h.1, ih bs' (k + 1) h.2]

theorem map_roi_pushLidarPoint (p : LidarPoint) (bs : List BoundingBox) :
    ∀ i, (pushLidarPoint p i bs).map (fun b => b.roi) = bs.map (fun b => b.roi) := by
  induction bs with
  | nil => intro i; cases i <;> rfl
  | cons b bs ih =>
    intro i
    cases i with
    | zero => simp [pushLidarPoint]
    | succ i => simp [pushLidarPoint, ih i]

theorem map_boxID_pushLidarPoint (p : LidarPoint) (bs : List BoundingBox) :
    ∀ i, (pushLidarPoint p i bs).map (fun b => b.boxID) = bs.map (fun b => b.boxID) := by
  induction bs with
  | nil => intro i; cases i <;> rfl
  | cons b bs ih =>
    intro i
    cases i with
    | zero => simp [pushLidarPoint]
    | succ i => simp [pushLidarPoint, ih i]

section Cluster

variable (s : ℚ) (P : Matrix (Fin 3) (Fin 4) ℚ) (R RT : Matrix (Fin 4) (Fin 4) ℚ)

theorem map_roi_clusterPoint (bs : List BoundingBox) (p : LidarPoint) :
    (clusterPoint s P R RT bs p).map (fun b => b.roi) = bs.map (fun b => b.roi) := by
  unfold clusterPoint
  dsimp only
  split
  · exact map_roi_pushLidarPoint p bs _
  · rfl

theorem enclosingBoxes_clusterPoint (bs : List BoundingBox) (p : LidarPoint) (pt : Point) :
    enclosingBoxes (clusterPoint s P R RT bs p) s pt = enclosingBoxes bs s pt :=
  enclosingBoxesFrom_congr s pt bs _ 0 (map_roi_clusterPoint s P R RT bs p)

theorem getElem?_clusterPoint (bs : List BoundingBox) (p : LidarPoint) (j : Nat) :
    (clusterPoint s P R RT bs p)[j]? =
      (bs[j]?).map (fun b => b.withAppended (assignedPoints bs [p] s P R RT j)) := by
  unfold clusterPoint assignedPoints
  dsimp only
  by_cases h : enclosingBoxes bs s (projectLidarPoint P R RT p) = [j]
  · rw [h]
    simp [getElem?_pushLidarPoint, h]
  · have hf : List.filter (fun p => decide (enclosingBoxes bs s (projectLidarPoint P R RT p) = [j]))
        [p] = [] := by simp [h]
    rw [hf]
    split
    · rename_i i hi
      have hji : j ≠ i := by
        intro hji
        subst hji
        exact h hi
      simp [getElem?_pushLidarPoint, hji]
    · cases bs[j]? <;> simp [BoundingBox.withAppended_nil]

theorem assignedPoints_clusterPoint (bs : List BoundingBox) (p : LidarPoint)
    (pts : List LidarPoint) (j : Nat) :
    assignedPoints (clusterPoint s P R RT bs p) pts s P R RT j = assignedPoints bs pts s P R RT j := by
  unfold assignedPoints
  simp only [enclosingBoxes_clusterPoint]

/-- The result of `clusterLidarWithROI`, region by region: the region at position `j` is
the input region with `assignedPoints` appended to its point set. -/
theorem getElem?_clusterLidarWithROI (pts : List LidarPoint) :
    ∀ (bs : List BoundingBox) (j : Nat), (clusterLidarWithROI bs pts s P R RT)[j]? =
      (bs[j]?).map (fun b => b.withAppended (assignedPoints bs pts s P R RT j)) := by
  induction pts with
  | nil =>
    intro bs j
    cases h : bs[j]? <;>
      simp [clusterLidarWithROI, assignedPoints, h, BoundingBox.withAppended_nil]
  | cons p pts ih =>
    intro bs j
    have hstep : clusterLidarWithROI bs (p :: pts) s P R RT =
        clusterLidarWithROI (clusterPoint s P R RT bs p) pts s P R RT := rfl
    rw [hstep, ih, getElem?_clusterPoint, assignedPoints_clusterPoint, Option.map_map]
    have happ : assignedPoints bs (p :: pts) s P R RT j =
        assignedPoints bs [p] s P R RT j ++ assignedPoints bs pts s P R RT j := by
      unfold assignedPoints
      rw [← List.filter_append]
      rfl
    rw [happ]
    cases bs[j]? with
    | none => rfl
    | some b => simp [BoundingBox.withAppended_withAppended]

theorem assignedPoints_clusterLidarWithROI (bs : List BoundingBox) (pts pts' : List LidarPoint)
    (j : Nat) :
    assignedPoints (clusterLidarWithROI bs pts s P R RT) pts' s P R RT j =
      assignedPoints bs pts' s P R RT j := by
  induction pts generalizing bs with
  | nil => rfl
  | cons p pts ih =>
    have hstep : clusterLidarWithROI bs (p :: pts) s P R RT =
        clusterLidarWithROI (clusterPoint s P R RT bs p) pts s P R RT := rfl
    rw [hstep, ih, assignedPoints_clusterPoint]

theorem map_roi_clusterLidarWithROI (pts : List LidarPoint) :
    ∀ bs : List BoundingBox,
      (clusterLidarWithROI bs pts s P R RT).map (fun b => b.roi) = bs.map (fun b => b.roi) := by
  induction pts with
  | nil => intro bs; rfl
  | cons p pts ih =>
    intro bs
    have hstep : clusterLidarWithROI bs (p :: pts) s P R RT =
        clusterLidarWithROI (clusterPoint s P R RT bs p) pts s P R RT := rfl
    rw [hstep, ih, map_roi_clusterPoint]

theorem length_clusterLidarWithROI (pts : List LidarPoint) (bs : List BoundingBox) :
    (clusterLidarWithROI bs pts s P R RT).length = bs.length := by
  have h := congrArg List.length (map_roi_clusterLidarWithROI s P R RT pts bs)
  simpa using h

end Cluster

theorem projectLidarPoint_samplePoint : projectLidarPoint pinhole 1 1 samplePoint = ⟨50, 50⟩ := by
  simp [projectLidarPoint, pinhole, samplePoint, homogeneous, Matrix.mul_apply,
    Fin.sum_univ_four, truncToInt]

/-- The shrunk rectangle of `(0, 0, 100, 100)` for shrink factor 0.1 is `(5, 5, 90, 90)`. -/
theorem smallerBox_sample : smallerBox (1 / 10) ⟨0, 0, 100, 100⟩ = ⟨5, 5, 90, 90⟩ := by
  have h1 : ((0 : Int) : ℚ) + 1 / 10 * ((100 : Int) : ℚ) / 2 = ((5 : Int) : ℚ) := by norm_num
  have h2 : ((100 : Int) : ℚ) * (1 - 1 / 10) = ((90 : Int) : ℚ) := by norm_num
  simp only [smallerBox, h1, h2, truncToInt_intCast]

theorem smallerBox_sample_shifted :
    smallerBox (1 / 10) ⟨20, 20, 100, 100⟩ = ⟨25, 25, 90, 90⟩ := by
  have h1 : ((20 : Int) : ℚ) + 1 / 10 * ((100 : Int) : ℚ) / 2 = ((25 : Int) : ℚ) := by norm_num
  have h2 : ((100 : Int) : ℚ) * (1 - 1 / 10) = ((90 : Int) : ℚ) := by norm_num
  simp only [smallerBox, h1, h2, truncToInt_intCast]

theorem insideShrunk_sampleBoxes (j : Nat) :
    insideShrunk sampleBoxes (1 / 10) ⟨50, 50⟩ j = decide (j = 0) := by
  cases j with
  | zero =>
    show (smallerBox (1 / 10) ⟨0, 0, 100, 100⟩).contains ⟨50, 50⟩ = decide (0 = 0)
    rw [smallerBox_sample]
    decide
  | succ j => simp [insideShrunk, sampleBoxes]

/-! ### The exactly-one policy, for every evaluation of the floating-point lines -/

theorem mem_enclosingBoxesFromWith (sh : Rect → Rect) (pt : Point) (bs : List BoundingBox) :
    ∀ (k i : Nat), i ∈ enclosingBoxesFromWith sh pt k bs ↔
      k ≤ i ∧ insideStored sh bs pt (i - k) = true := by
  induction bs with
  | nil => intro k i; simp [enclosingBoxesFromWith, insideStored]
  | cons b bs ih =>
    intro k i
    have hshift : ∀ j, i - k = j + 1 → i - (k + 1) = j := fun j hj => by omega
    have hstep : ∀ j, i - k = j + 1 →
        (insideStored sh (b :: bs) pt (i - k) = true ↔
          insideStored sh bs pt (i - (k + 1)) = true) := by
      intro j hj
      rw [hshift j hj, hj]
      simp [insideStored]
    unfold enclosingBoxesFromWith
    by_cases hb : (sh b.roi).contains pt = true
    · rw [if_pos hb, List.mem_cons, ih]
      constructor
      · rintro (h | ⟨h1, h2⟩)
        · subst h
          simp [insideStored, hb]
        · exact ⟨by omega, (hstep (i - k - 1) (by omega)).mpr h2⟩
      · rintro ⟨h1, h2⟩
        by_cases hik : i = k
        · exact Or.inl hik
        · exact Or.inr ⟨by omega, (hstep (i - k - 1) (by omega)).mp h2⟩
    · rw [if_neg hb, ih]
      constructor
      · rintro ⟨h1, h2⟩
        exact ⟨by omega, (hstep (i - k - 1) (by omega)).mpr h2⟩
      · rintro ⟨h1, h2⟩
        have hik : i ≠ k := by
          intro h
          subst h
          simp [insideStored] at h2
          exact hb h2
        exact ⟨by omega, (hstep (i - k - 1) (by omega)).mp h2⟩

theorem mem_enclosingBoxesWith (sh : Rect → Rect) (bs : List BoundingBox) (pt : Point)
    (i : Nat) : i ∈ enclosingBoxesWith sh bs pt ↔ insideStored sh bs pt i = true := by
  simp [enclosingBoxesWith, mem_enclosingBoxesFromWith]

theorem enclosingBoxesFromWith_sorted (sh : Rect → Rect) (pt : Point)
    (bs : List BoundingBox) :
    ∀ k, (enclosingBoxesFromWith sh pt k bs).Pairwise (fun a b => a < b) := by
  induction bs with
  | nil => intro k; simp [enclosingBoxesFromWith]
  | cons b bs ih =>
    intro k
    unfold enclosingBoxesFromWith
    split
    · refine List.Pairwise.cons ?_ (ih (k + 1))
      intro a ha
      have := (mem_enclosingBoxesFromWith sh pt bs (k + 1) a).mp ha
      omega
    · exact ih (k + 1)

/-- The collected list is the singleton `[r]` exactly when `r` is the one region whose
stored rectangle contains the pixel. -/
theorem enclosingBoxesWith_eq_singleton_iff (sh : Rect → Rect) (bs : List BoundingBox)
    (pt : Point) (r : Nat) :
    enclosingBoxesWith sh bs pt = [r] ↔
      (insideStored sh bs pt r = true ∧ ∀ j, insideStored sh bs pt j = true → j = r) := by
  constructor
  · intro h
    refine ⟨(mem_enclosingBoxesWith sh bs pt r).mp (by simp [h]), ?_⟩
    intro j hj
    have := (mem_enclosingBoxesWith sh bs pt j).mpr hj
    simpa [h] using this
  · rintro ⟨h1, h2⟩
    have hnodup : (enclosingBoxesWith sh bs pt).Nodup :=
      (enclosingBoxesFromWith_sorted sh pt bs 0).imp (fun h => Nat.ne_of_lt h)
    have hperm : (enclosingBoxesWith sh bs pt).Perm [r] := by
      rw [List.perm_ext_iff_of_nodup hnodup (List.nodup_singleton r)]
      intro a
      rw [mem_enclosingBoxesWith, List.mem_singleton]
      constructor
      · exact h2 a
      · intro h
        subst h
        exact h1
    exact List.perm_singleton.mp hperm

theorem enclosingBoxesFromWith_congr (sh : Rect → Rect) (pt : Point) :
    ∀ (bs bs' : List BoundingBox) (k : Nat),
      bs'.map (fun b => b.roi) = bs.map (fun b => b.roi) →
      enclosingBoxesFromWith sh pt k bs' = enclosingBoxesFromWith sh pt k bs := by
  intro bs
  induction bs with
  | nil =>
    intro bs' k h
    cases bs' with
    | nil => rfl
    | cons _ _ => simp at h
  | cons b bs ih =>
    intro bs' k h
    cases bs' with
    | nil => simp at h
    | cons b' bs' =>
      simp only [List.map_cons, List.cons.injEq] at h
      simp only [enclosingBoxesFromWith, h.1, ih bs' (k + 1) h.2]

theorem map_roi_clusterPointWith (px : LidarPoint → Point) (sh : Rect → Rect)
    (bs : List BoundingBox) (p : LidarPoint) :
    (clusterPointWith px sh bs p).map (fun b => b.roi) = bs.map (fun b => b.roi) := by
  unfold clusterPointWith
  dsimp only
  split
  · exact map_roi_pushLidarPoint p bs _
  · rfl

theorem enclosingBoxesWith_clusterPointWith (px : LidarPoint → Point) (sh : Rect → Rect)
    (bs : List BoundingBox) (p : LidarPoint) (pt : Point) :
    enclosingBoxesWith sh (clusterPointWith px sh bs p) pt = enclosingBoxesWith sh bs pt :=
  enclosingBoxesFromWith_congr sh pt bs _ 0 (map_roi_clusterPointWith px sh bs p)

theorem getElem?_clusterPointWith (px : LidarPoint → Point) (sh : Rect → Rect)
    (bs : List BoundingBox) (p : LidarPoint) (j : Nat) :
    (clusterPointWith px sh bs p)[j]? =
      (bs[j]?).map (fun b => b.withAppended (assignedPointsWith px sh bs [p] j)) := by
  unfold clusterPointWith assignedPointsWith
  dsimp only
  by_cases h : enclosingBoxesWith sh bs (px p) = [j]
  · rw [h]
    simp [getElem?_pushLidarPoint, h]
  · have hf : List.filter (fun p => decide (enclosingBoxesWith sh bs (px p) = [j])) [p]
        = [] := by simp [h]
    rw [hf]
    split
    · rename_i i hi
      have hji : j ≠ i := by
        intro hji
        subst hji
        exact h hi
      simp [getElem?_pushLidarPoint, hji]
    · cases bs[j]? <;> simp [BoundingBox.withAppended_nil]

theorem assignedPointsWith_clusterPointWith (px : LidarPoint → Point) (sh : Rect → Rect)
    (bs : List BoundingBox) (p : LidarPoint) (pts : List LidarPoint) (j : Nat) :
    assignedPointsWith px sh (clusterPointWith px sh bs p) pts j
      = assignedPointsWith px sh bs pts j := by
  unfold assignedPointsWith
  simp only [enclosingBoxesWith_clusterPointWith]

/-- The result of `clusterLidarWithROIWith`, region by region. -/
theorem getElem?_clusterLidarWithROIWith (px : LidarPoint → Point) (sh : Rect → Rect)
    (pts : List LidarPoint) :
    ∀ (bs : List BoundingBox) (j : Nat), (clusterLidarWithROIWith px sh bs pts)[j]? =
      (bs[j]?).map (fun b => b.withAppended (assignedPointsWith px sh bs pts j)) := by
  induction pts with
  | nil =>
    intro bs j
    cases h : bs[j]? <;>
      simp [clusterLidarWithROIWith, assignedPointsWith, h, BoundingBox.withAppended_nil]
  | cons p pts ih =>
    intro bs j
    have hstep : clusterLidarWithROIWith px sh bs (p :: pts) =
        clusterLidarWithROIWith px sh (clusterPointWith px sh bs p) pts := rfl
    rw [hstep, ih, getElem?_clusterPointWith, assignedPointsWith_clusterPointWith,
      Option.map_map]
    have happ : assignedPointsWith px sh bs (p :: pts) j =
        assignedPointsWith px sh bs [p] j ++ assignedPointsWith px sh bs pts j := by
      unfold assignedPointsWith
      rw [← List.filter_append]
      rfl
    rw [happ]
    cases bs[j]? with
    | none => rfl
    | some b => simp [BoundingBox.withAppended_withAppended]

theorem length_clusterLidarWithROIWith (px : LidarPoint → Point) (sh : Rect → Rect)
    (pts : List LidarPoint) :
    ∀ bs : List BoundingBox, (clusterLidarWithROIWith px sh bs pts).length = bs.length := by
  induction pts with
  | nil => intro bs; rfl
  | cons p pts ih =>
    intro bs
    have hstep : clusterLidarWithROIWith px sh bs (p :: pts) =
        clusterLidarWithROIWith px sh (clusterPointWith px sh bs p) pts := rfl
    rw [hstep, ih]
    have := congrArg List.length (map_roi_clusterPointWith px sh bs p)
    simpa using this

theorem enclosingBoxesFrom_eq_with (s : ℚ) (pt : Point) (bs : List BoundingBox) :
    ∀ k, enclosingBoxesFrom s pt k bs = enclosingBoxesFromWith (smallerBox s) pt k bs := by
  induction bs with
  | nil => intro k; rfl
  | cons b bs ih =>
    intro k
    simp only [enclosingBoxesFrom, enclosingBoxesFromWith, ih]

/-- The embedding over exact rationals is the instance of `clusterLidarWithROIWith` with
the pixel `projectLidarPoint` and the stored rectangle `smallerBox`. -/
theorem clusterLidarWithROI_eq_with (boundingBoxes : List BoundingBox)
    (lidarPoints : List LidarPoint) (shrinkFactor : ℚ) (P_rect_xx : Matrix (Fin 3) (Fin 4) ℚ)
    (R_rect_xx RT : Matrix (Fin 4) (Fin 4) ℚ) :
    clusterLidarWithROI boundingBoxes lidarPoints shrinkFactor P_rect_xx R_rect_xx RT =
      clusterLidarWithROIWith (projectLidarPoint P_rect_xx R_rect_xx RT)
        (smallerBox shrinkFactor) boundingBoxes lidarPoints := by
  have hpt : clusterPoint shrinkFactor P_rect_xx R_rect_xx RT =
      clusterPointWith (projectLidarPoint P_rect_xx R_rect_xx RT) (smallerBox shrinkFactor) := by
    funext bs p
    simp only [clusterPoint, clusterPointWith, enclosingBoxes, enclosingBoxesWith,
      enclosingBoxesFrom_eq_with]
  unfold clusterLidarWithROI clusterLidarWithROIWith
  rw [hpt]

theorem enclosingBoxes_sampleBoxes :
    enclosingBoxes sampleBoxes (1 / 10) (projectLidarPoint pinhole 1 1 samplePoint) = [0] := by
  rw [enclosingBoxes_eq_singleton_iff, projectLidarPoint_samplePoint]
  constructor
  · rw [insideShrunk_sampleBoxes]
    rfl
  · intro j hj
    rw [insideShrunk_sampleBoxes] at hj
    simpa using hj

theorem clusterLidarWithROI_sample_once :
    clusterLidarWithROI sampleBoxes [samplePoint] (1 / 10) pinhole 1 1
      = [⟨0, ⟨0, 0, 100, 100⟩, [samplePoint]⟩] := by
  show clusterPoint (1 / 10) pinhole 1 1 sampleBoxes samplePoint = _
  unfold clusterPoint
  simp only [enclosingBoxes_sampleBoxes]
  rfl

theorem clusterLidarWithROI_sample_twice :
    clusterLidarWithROI (clusterLidarWithROI sampleBoxes [samplePoint] (1 / 10) pinhole 1 1)
        [samplePoint] (1 / 10) pinhole 1 1
      = [⟨0, ⟨0, 0, 100, 100⟩, [samplePoint, samplePoint]⟩] := by
  have henc : enclosingBoxes
      (clusterLidarWithROI sampleBoxes [samplePoint] (1 / 10) pinhole 1 1) (1 / 10)
      (projectLidarPoint pinhole 1 1 samplePoint) = [0] := by
    rw [← enclosingBoxes_sampleBoxes]
    exact enclosingBoxesFrom_congr _ _ _ _ 0 (map_roi_clusterLidarWithROI _ _ _ _ _ _)
  show clusterPoint (1 / 10) pinhole 1 1 _ samplePoint = _
  unfold clusterPoint
  simp only [henc]
  rw [clusterLidarWithROI_sample_once]
  rfl

/-- C10 (as stated, refuted). One region `(0, 0, 100, 100)`, shrink factor 0.1 and one point
with pixel `(50, 50)`: after the first run the region holds the point once, after the second
run (same points, shrink factor and calibration, on the list the first run produced) it
holds the point twice. -/
theorem clusterLidarWithROI_second_run_duplicates :
    (clusterLidarWithROI sampleBoxes [samplePoint] (1 / 10) pinhole 1 1).map
        (fun b => b.lidarPoints) = [[samplePoint]] ∧
      (clusterLidarWithROI
        (clusterLidarWithROI sampleBoxes [samplePoint] (1 / 10) pinhole 1 1)
        [samplePoint] (1 / 10) pinhole 1 1).map (fun b => b.lidarPoints)
        = [[samplePoint, samplePoint]] ∧
      (clusterLidarWithROI
        (clusterLidarWithROI sampleBoxes [samplePoint] (1 / 10) pinhole 1 1)
        [samplePoint] (1 / 10) pinhole 1 1).map (fun b => b.lidarPoints)
        ≠ (clusterLidarWithROI sampleBoxes [samplePoint] (1 / 10) pinhole 1 1).map
          (fun b => b.lidarPoints) := by
  rw [clusterLidarWithROI_sample_twice, clusterLidarWithROI_sample_once]
  refine ⟨rfl, rfl, ?_⟩
  simp

/-- C10 (amended). For every region list, point list, shrink factor and calibration,
the first run of `clusterLidarWithROI` appends to the region at each position `j` the
points assigned to it (`assignedPoints`), and a second run with the same points, shrink
factor and calibration on the produced list appends the same points to it once more. -/
theorem clusterLidarWithROI_second_run_appends_again (boundingBoxes : List BoundingBox)
    (lidarPoints : List LidarPoint) (shrinkFactor : ℚ) (P_rect_xx : Matrix (Fin 3) (Fin 4) ℚ)
    (R_rect_xx RT : Matrix (Fin 4) (Fin 4) ℚ) (j : Nat) :
    (clusterLidarWithROI boundingBoxes lidarPoints shrinkFactor P_rect_xx R_rect_xx RT)[j]?
        = (boundingBoxes[j]?).map (fun b => b.withAppended
            (assignedPoints boundingBoxes lidarPoints shrinkFactor P_rect_xx R_rect_xx RT j)) ∧
      (clusterLidarWithROI
        (clusterLidarWithROI boundingBoxes lidarPoints shrinkFactor P_rect_xx R_rect_xx RT)
        lidarPoints shrinkFactor P_rect_xx R_rect_xx RT)[j]?
        = ((clusterLidarWithROI boundingBoxes lidarPoints shrinkFactor
              P_rect_xx R_rect_xx RT)[j]?).map (fun b => b.withAppended
            (assignedPoints boundingBoxes lidarPoints shrinkFactor P_rect_xx R_rect_xx RT j)) := by
  constructor
  · exact getElem?_clusterLidarWithROI _ _ _ _ _ _ _
  · rw [getElem?_clusterLidarWithROI shrinkFactor P_rect_xx R_rect_xx RT lidarPoints
      (clusterLidarWithROI boundingBoxes lidarPoints shrinkFactor P_rect_xx R_rect_xx RT) j,
      assignedPoints_clusterLidarWithROI]

/-! ### The shrunk rectangle -/

theorem truncToInt_of_nonneg {q : ℚ} (h : 0 ≤ q) : truncToInt q = ⌊q⌋ := by
  unfold truncToInt
  rw [Int.tdiv_eq_ediv (Rat.num_nonneg.mpr h) (Int.natCast_nonneg _), Rat.floor_def]

theorem truncToInt_nonneg {q : ℚ} (h : 0 ≤ q) : 0 ≤ truncToInt q := by
  rw [truncToInt_of_nonneg h]
  exact Int.floor_nonneg.mpr h

theorem truncToInt_mono_of_nonneg {a b : ℚ} (ha : 0 ≤ a) (hab : a ≤ b) :
    truncToInt a ≤ truncToInt b := by
  rw [truncToInt_of_nonneg ha, truncToInt_of_nonneg (le_trans ha hab)]
  exact Int.floor_mono hab

/-- C11. For every rectangle with non-negative width and height and all shrink factors
`s1 ≤ s2 < 1` (in particular for `0 ≤ s1 ≤ s2 < 1`), the area of the shrunk rectangle computed for `s2` (integer fields,
after truncation) is at most the area of the one computed for `s1`. -/
theorem smallerBox_area_antitone (roi : Rect) (s1 s2 : ℚ)
    (hw : 0 ≤ roi.width) (hh : 0 ≤ roi.height) (h12 : s1 ≤ s2) (h1 : s2 < 1) :
    (smallerBox s2 roi).width * (smallerBox s2 roi).height
      ≤ (smallerBox s1 roi).width * (smallerBox s1 roi).height := by
  have hwq : (0 : ℚ) ≤ (roi.width : ℚ) := by exact_mod_cast hw
  have hhq : (0 : ℚ) ≤ (roi.height : ℚ) := by exact_mod_cast hh
  have hs2 : (0 : ℚ) ≤ 1 - s2 := by linarith
  have hs : 1 - s2 ≤ 1 - s1 := by linarith
  have hs1 : (0 : ℚ) ≤ 1 - s1 := by linarith
  have hW : (smallerBox s2 roi).width ≤ (smallerBox s1 roi).width :=
    truncToInt_mono_of_nonneg (mul_nonneg hwq hs2) (mul_le_mul_of_nonneg_left hs hwq)
  have hH : (smallerBox s2 roi).height ≤ (smallerBox s1 roi).height :=
    truncToInt_mono_of_nonneg (mul_nonneg hhq hs2) (mul_le_mul_of_nonneg_left hs hhq)
  have hH0 : 0 ≤ (smallerBox s2 roi).height := truncToInt_nonneg (mul_nonneg hhq hs2)
  have hW0 : 0 ≤ (smallerBox s1 roi).width := truncToInt_nonneg (mul_nonneg hwq hs1)
  exact mul_le_mul hW hH hH0 hW0

theorem smallerBox_area_antitone_witness :
    (smallerBox (1 / 2) ⟨0, 0, 100, 100⟩).width * (smallerBox (1 / 2) ⟨0, 0, 100, 100⟩).height
      ≤ (smallerBox (1 / 10) ⟨0, 0, 100, 100⟩).width
        * (smallerBox (1 / 10) ⟨0, 0, 100, 100⟩).height :=
  smallerBox_area_antitone ⟨0, 0, 100, 100⟩ (1 / 10) (1 / 2) (by decide) (by decide)
    (by norm_num) (by norm_num)

/-- C17. For every region list, point list, shrink factor and calibration,
`clusterLidarWithROI` keeps the length and order of the region list, and the region at every
position keeps its id and rectangle; its previous point set is a prefix of its new point set,
and the points appended to it form a subsequence of the input point list, in input order. -/
theorem clusterLidarWithROI_only_appends (boundingBoxes : List BoundingBox)
    (lidarPoints : List LidarPoint) (shrinkFactor : ℚ) (P_rect_xx : Matrix (Fin 3) (Fin 4) ℚ)
    (R_rect_xx RT : Matrix (Fin 4) (Fin 4) ℚ) :
    (clusterLidarWithROI boundingBoxes lidarPoints shrinkFactor P_rect_xx R_rect_xx RT).length
        = boundingBoxes.length ∧
      ∀ (j : Nat) (b : BoundingBox), boundingBoxes[j]? = some b →
        ∃ b', (clusterLidarWithROI boundingBoxes lidarPoints shrinkFactor
              P_rect_xx R_rect_xx RT)[j]? = some b' ∧
          b'.boxID = b.boxID ∧ b'.roi = b.roi ∧ b.lidarPoints <+: b'.lidarPoints ∧
          ∃ added, b'.lidarPoints = b.lidarPoints ++ added ∧ added.Sublist lidarPoints := by
  refine ⟨length_clusterLidarWithROI shrinkFactor P_rect_xx R_rect_xx RT lidarPoints
    boundingBoxes, ?_⟩
  intro j b hb
  refine ⟨b.withAppended
    (assignedPoints boundingBoxes lidarPoints shrinkFactor P_rect_xx R_rect_xx RT j),
    ?_, rfl, rfl, ?_, _, rfl, ?_⟩
  · rw [getElem?_clusterLidarWithROI, hb]
    rfl
  · exact List.prefix_append _ _
  · exact List.filter_sublist _

theorem clusterLidarWithROI_only_appends_witness :
    sampleBoxes[0]? = some ⟨0, ⟨0, 0, 100, 100⟩, []⟩ ∧
      ∃ b', (clusterLidarWithROI sampleBoxes [samplePoint] (1 / 10) pinhole 1 1)[0]?
          = some b' ∧
        b'.boxID = 0 ∧ b'.roi = ⟨0, 0, 100, 100⟩ ∧ [] <+: b'.lidarPoints ∧
        ∃ added, b'.lidarPoints = [] ++ added ∧ added.Sublist [samplePoint] :=
  ⟨rfl, (clusterLidarWithROI_only_appends sampleBoxes [samplePoint] (1 / 10) pinhole 1 1).2
    0 ⟨0, ⟨0, 0, 100, 100⟩, []⟩ rfl⟩

/-! ### The exactly-one policy: claims -/

theorem insideStored_smallerBox (s : ℚ) (bs : List BoundingBox) (pt : Point) (i : Nat) :
    insideStored (smallerBox s) bs pt i = insideShrunk bs s pt i := rfl

/-- The stored rectangle of `(0, 0, 3, 3)` for shrink factor 1/2 is `(0, 0, 1, 1)`: the
offset 0.75 is truncated to 0 and the size 1.5 to 1. All floating-point operations on
these values are exact. -/
theorem smallerBox_small : smallerBox (1 / 2) ⟨0, 0, 3, 3⟩ = ⟨0, 0, 1, 1⟩ := by
  have h1 : ((0 : Int) : ℚ) + 1 / 2 * ((3 : Int) : ℚ) / 2 = 3 / 4 := by norm_num
  have h2 : ((3 : Int) : ℚ) * (1 - 1 / 2) = 3 / 2 := by norm_num
  have h3 : truncToInt (3 / 4) = 0 := by
    rw [truncToInt_of_nonneg (by norm_num), Int.floor_eq_iff]
    constructor <;> norm_num
  have h4 : truncToInt (3 / 2) = 1 := by
    rw [truncToInt_of_nonneg (by norm_num), Int.floor_eq_iff]
    constructor <;> norm_num
  simp only [smallerBox, h1, h2, h3, h4]

theorem projectLidarPoint_pointAtOneOne :
    projectLidarPoint pinhole 1 1 pointAtOneOne = ⟨1, 1⟩ := by
  simp [projectLidarPoint, pinhole, pointAtOneOne, homogeneous, Matrix.mul_apply,
    Fin.sum_univ_four, truncToInt]

theorem projectLidarPoint_pointAtOrigin :
    projectLidarPoint pinhole 1 1 pointAtOrigin = ⟨0, 0⟩ := by
  simp [projectLidarPoint, pinhole, pointAtOrigin, homogeneous, Matrix.mul_apply,
    Fin.sum_univ_four, truncToInt]

/-- C4 (as stated, refuted). One region `(0, 0, 3, 3)` and shrink factor 1/2: the shrunk
rectangle of the claim has origin `(0.75, 0.75)` and size `1.5 x 1.5` and contains the pixel
`(1, 1)`; the rectangle stored with integer fields is `(0, 0, 1, 1)` and does not contain
it, and `clusterLidarWithROI` leaves the region without the point. -/
theorem clusterLidarWithROI_exact_rectangle_not_appended :
    exactShrunkContains (1 / 2) ⟨0, 0, 3, 3⟩ ⟨1, 1⟩ = true ∧
      projectLidarPoint pinhole 1 1 pointAtOneOne = ⟨1, 1⟩ ∧
      smallerBox (1 / 2) ⟨0, 0, 3, 3⟩ = ⟨0, 0, 1, 1⟩ ∧
      clusterLidarWithROI smallBoxes [pointAtOneOne] (1 / 2) pinhole 1 1
        = [⟨0, ⟨0, 0, 3, 3⟩, []⟩] := by
  refine ⟨?_, projectLidarPoint_pointAtOneOne, smallerBox_small, ?_⟩
  · norm_num [exactShrunkContains]
  · have henc : enclosingBoxes smallBoxes (1 / 2)
        (projectLidarPoint pinhole 1 1 pointAtOneOne) = [] := by
      rw [projectLidarPoint_pointAtOneOne]
      show (if (smallerBox (1 / 2) ⟨0, 0, 3, 3⟩).contains ⟨1, 1⟩ = true then [0] else [])
        = ([] : List Nat)
      rw [smallerBox_small]
      rfl
    show clusterPoint (1 / 2) pinhole 1 1 smallBoxes pointAtOneOne = _
    unfold clusterPoint
    simp only [henc]
    rfl

/-- C4 (amended). For every region list and point list and for every pixel and stored
rectangle that the floating-point lines of `clusterLidarWithROI` yield from the calibration
and the shrink factor: if the pixel of an input point `p` lies inside the rectangle stored
for the region at position `r` and inside that of no other region, then `p` is appended
to the point set of that region: the region afterwards is the region before with a list of
points appended that contains `p`. -/
theorem clusterLidarWithROIWith_assigns_unique (pixelOf : LidarPoint → Point)
    (shrunk : Rect → Rect) (boundingBoxes : List BoundingBox)
    (lidarPoints : List LidarPoint) (p : LidarPoint) (r : Nat)
    (hp : p ∈ lidarPoints)
    (hin : insideStored shrunk boundingBoxes (pixelOf p) r = true)
    (huniq : ∀ j, insideStored shrunk boundingBoxes (pixelOf p) j = true → j = r) :
    ∃ b added, boundingBoxes[r]? = some b ∧
      (clusterLidarWithROIWith pixelOf shrunk boundingBoxes lidarPoints)[r]?
        = some (b.withAppended added) ∧ p ∈ added := by
  have hb : ∃ b, boundingBoxes[r]? = some b := by
    unfold insideStored at hin
    cases h : boundingBoxes[r]? with
    | none => simp [h] at hin
    | some b => exact ⟨b, rfl⟩
  obtain ⟨b, hb⟩ := hb
  refine ⟨b, assignedPointsWith pixelOf shrunk boundingBoxes lidarPoints r, hb, ?_, ?_⟩
  · rw [getElem?_clusterLidarWithROIWith, hb]
    rfl
  · unfold assignedPointsWith
    rw [List.mem_filter]
    refine ⟨hp, ?_⟩
    rw [decide_eq_true_eq]
    exact (enclosingBoxesWith_eq_singleton_iff _ _ _ _).mpr ⟨hin, huniq⟩

theorem clusterLidarWithROIWith_assigns_unique_witness :
    smallerBox (1 / 10) ⟨0, 0, 100, 100⟩ = ⟨5, 5, 90, 90⟩ ∧
      projectLidarPoint pinhole 1 1 samplePoint = ⟨50, 50⟩ ∧
      clusterLidarWithROI sampleBoxes [samplePoint] (1 / 10) pinhole 1 1
        = clusterLidarWithROIWith (projectLidarPoint pinhole 1 1) (smallerBox (1 / 10))
            sampleBoxes [samplePoint] ∧
      ∃ b added, sampleBoxes[0]? = some b ∧
        (clusterLidarWithROIWith (projectLidarPoint pinhole 1 1) (smallerBox (1 / 10))
            sampleBoxes [samplePoint])[0]?
          = some (b.withAppended added) ∧ samplePoint ∈ added :=
  ⟨smallerBox_sample, projectLidarPoint_samplePoint,
    clusterLidarWithROI_eq_with sampleBoxes [samplePoint] (1 / 10) pinhole 1 1,
    clusterLidarWithROIWith_assigns_unique (projectLidarPoint pinhole 1 1)
      (smallerBox (1 / 10)) sampleBoxes [samplePoint] samplePoint 0 (by simp)
      (by
        rw [projectLidarPoint_samplePoint, insideStored_smallerBox, insideShrunk_sampleBoxes]
        rfl)
      (by
        intro j hj
        rw [projectLidarPoint_samplePoint, insideStored_smallerBox,
          insideShrunk_sampleBoxes] at hj
        simpa using hj)⟩

/-- C5 (as stated, refuted). One region `(0, 0, 3, 3)` and shrink factor 1/2: the pixel
`(0, 0)` lies outside the shrunk rectangle of the claim (origin `(0.75, 0.75)`), so inside
the shrunk rectangle of no region, yet the rectangle stored with integer fields is
`(0, 0, 1, 1)`, contains it, and `clusterLidarWithROI` appends the point to the region. -/
theorem clusterLidarWithROI_outside_exact_rectangle_appended :
    exactShrunkContains (1 / 2) ⟨0, 0, 3, 3⟩ ⟨0, 0⟩ = false ∧
      projectLidarPoint pinhole 1 1 pointAtOrigin = ⟨0, 0⟩ ∧
      smallerBox (1 / 2) ⟨0, 0, 3, 3⟩ = ⟨0, 0, 1, 1⟩ ∧
      clusterLidarWithROI smallBoxes [pointAtOrigin] (1 / 2) pinhole 1 1
        = [⟨0, ⟨0, 0, 3, 3⟩, [pointAtOrigin]⟩] := by
  refine ⟨?_, projectLidarPoint_pointAtOrigin, smallerBox_small, ?_⟩
  · norm_num [exactShrunkContains]
  · have henc : enclosingBoxes smallBoxes (1 / 2)
        (projectLidarPoint pinhole 1 1 pointAtOrigin) = [0] := by
      rw [projectLidarPoint_pointAtOrigin]
      show (if (smallerBox (1 / 2) ⟨0, 0, 3, 3⟩).contains ⟨0, 0⟩ = true then [0] else [])
        = [0]
      rw [smallerBox_small]
      rfl
    show clusterPoint (1 / 2) pinhole 1 1 smallBoxes pointAtOrigin = _
    unfold clusterPoint
    simp only [henc]
    rfl

/-- C5 (amended). For every region list and point list and for every pixel and stored
rectangle that the floating-point lines of `clusterLidarWithROI` yield from the calibration
and the shrink factor: when the pixel of a point `p` lies inside the rectangle stored for no
region, or inside those of two different regions, the region list keeps its length and every
region afterwards is the region before with a list of points appended that does not
contain `p`. -/
theorem clusterLidarWithROIWith_drops_ambiguous (pixelOf : LidarPoint → Point)
    (shrunk : Rect → Rect) (boundingBoxes : List BoundingBox)
    (lidarPoints : List LidarPoint) (p : LidarPoint)
    (hamb : (∀ j, insideStored shrunk boundingBoxes (pixelOf p) j = false) ∨
      (∃ i j, i ≠ j ∧ insideStored shrunk boundingBoxes (pixelOf p) i = true ∧
        insideStored shrunk boundingBoxes (pixelOf p) j = true)) :
    (clusterLidarWithROIWith pixelOf shrunk boundingBoxes lidarPoints).length
        = boundingBoxes.length ∧
      ∀ (i : Nat) (b : BoundingBox), boundingBoxes[i]? = some b → ∃ added,
        (clusterLidarWithROIWith pixelOf shrunk boundingBoxes lidarPoints)[i]?
          = some (b.withAppended added) ∧ p ∉ added := by
  constructor
  · exact length_clusterLidarWithROIWith pixelOf shrunk lidarPoints boundingBoxes
  intro i b hb
  refine ⟨assignedPointsWith pixelOf shrunk boundingBoxes lidarPoints i, ?_, ?_⟩
  · rw [getElem?_clusterLidarWithROIWith, hb]
    rfl
  · unfold assignedPointsWith
    rw [List.mem_filter]
    rintro ⟨_, h⟩
    rw [decide_eq_true_eq, enclosingBoxesWith_eq_singleton_iff] at h
    rcases hamb with h0 | ⟨a, c, hac, ha, hc⟩
    · rw [h0 i] at h
      exact Bool.false_ne_true h.1
    · exact hac ((h.2 a ha).trans (h.2 c hc).symm)

theorem clusterLidarWithROIWith_drops_ambiguous_witness :
    smallerBox (1 / 10) ⟨0, 0, 100, 100⟩ = ⟨5, 5, 90, 90⟩ ∧
      smallerBox (1 / 10) ⟨20, 20, 100, 100⟩ = ⟨25, 25, 90, 90⟩ ∧
      clusterLidarWithROI overlappingBoxes [samplePoint] (1 / 10) pinhole 1 1
        = clusterLidarWithROIWith (projectLidarPoint pinhole 1 1) (smallerBox (1 / 10))
            overlappingBoxes [samplePoint] ∧
      ∀ (i : Nat) (b : BoundingBox), overlappingBoxes[i]? = some b → ∃ added,
        (clusterLidarWithROIWith (projectLidarPoint pinhole 1 1) (smallerBox (1 / 10))
            overlappingBoxes [samplePoint])[i]?
          = some (b.withAppended added) ∧ samplePoint ∉ added :=
  ⟨smallerBox_sample, smallerBox_sample_shifted,
    clusterLidarWithROI_eq_with overlappingBoxes [samplePoint] (1 / 10) pinhole 1 1,
    (clusterLidarWithROIWith_drops_ambiguous (projectLidarPoint pinhole 1 1)
      (smallerBox (1 / 10)) overlappingBoxes [samplePoint] samplePoint
      (Or.inr ⟨0, 1, by decide,
        by
          rw [projectLidarPoint_samplePoint]
          show (smallerBox (1 / 10) ⟨0, 0, 100, 100⟩).contains ⟨50, 50⟩ = true
          rw [smallerBox_sample]
          decide,
        by
          rw [projectLidarPoint_samplePoint]
          show (smallerBox (1 / 10) ⟨20, 20, 100, 100⟩).contains ⟨50, 50⟩ = true
          rw [smallerBox_sample_shifted]
          decide⟩)).2⟩
/-! ## `matchBoundingBoxes`: properties -/

theorem vecGet?_natCast {α : Type} (v : List α) (i : Nat) : vecGet? v (i : Int) = v[i]? := by
  simp [vecGet?]

theorem vecGet?_eq_some {α : Type} {v : List α} {i : Int} {a : α} (h : vecGet? v i = some a) :
    0 ≤ i ∧ v[i.toNat]? = some a := by
  unfold vecGet? at h
  by_cases hi : 0 ≤ i
  · rw [if_pos hi] at h
    exact ⟨hi, h⟩
  · rw [if_neg hi] at h
    cases h

theorem getElem?_snoc_of_some {l : List Int} {j : Nat} {w : Int} (v : Int)
    (h : l[j]? = some w) : (l ++ [v])[j]? = some w := by
  have hj : j < l.length := by
    by_contra hcon
    rw [List.getElem?_eq_none (by omega)] at h
    cases h
  rw [List.getElem?_append_left hj]
  exact h

theorem getElem?_snoc_cases {l : List Int} {j : Nat} {w v : Int}
    (h : (l ++ [v])[j]? = some w) : l[j]? = some w ∨ (j = l.length ∧ w = v) := by
  by_cases hj : j < l.length
  · rw [List.getElem?_append_left hj] at h
    exact Or.inl h
  · right
    rw [List.getElem?_append_right (by omega)] at h
    by_cases hj0 : j - l.length = 0
    · rw [hj0] at h
      simp at h
      exact ⟨by omega, h.symm⟩
    · obtain ⟨k, hk⟩ : ∃ k, j - l.length = k + 1 := ⟨j - l.length - 1, by omega⟩
      rw [hk] at h
      simp at h

theorem maxElementFrom_spec : ∀ (vs pre : List Int) (best : Int) (bestIdx : Nat),
    pre[bestIdx]? = some best →
    (∀ (j : Nat) (w : Int), pre[j]? = some w → w ≤ best) →
    (∀ (j : Nat) (w : Int), j < bestIdx → pre[j]? = some w → w < best) →
    IsFirstMaxColumn (pre ++ vs) (maxElementFrom best bestIdx pre.length vs) := by
  intro vs
  induction vs with
  | nil =>
    intro pre best bestIdx h1 h2 h3
    simp only [maxElementFrom, List.append_nil]
    exact ⟨best, h1, h2, h3⟩
  | cons v vs ih =>
    intro pre best bestIdx h1 h2 h3
    have hlen : (pre ++ [v]).length = pre.length + 1 := by simp
    have happ : pre ++ v :: vs = (pre ++ [v]) ++ vs := by simp
    unfold maxElementFrom
    by_cases hlt : best < v
    · rw [if_pos hlt, happ, ← hlen]
      apply ih (pre ++ [v]) v
      · simp
      · intro j w hw
        rcases getElem?_snoc_cases hw with h | ⟨_, h⟩
        · exact le_of_lt (lt_of_le_of_lt (h2 j w h) hlt)
        · exact le_of_eq h
      · intro j w hj hw
        rcases getElem?_snoc_cases hw with h | ⟨h, _⟩
        · exact lt_of_le_of_lt (h2 j w h) hlt
        · omega
    · rw [if_neg hlt, happ, ← hlen]
      apply ih (pre ++ [v]) best bestIdx
      · exact getElem?_snoc_of_some v h1
      · intro j w hw
        rcases getElem?_snoc_cases hw with h | ⟨_, h⟩
        · exact h2 j w h
        · rw [h]
          exact not_lt.mp hlt
      · intro j w hj hw
        rcases getElem?_snoc_cases hw with h | ⟨h, _⟩
        · exact h3 j w hj h
        · have : bestIdx < pre.length := by
            by_contra hcon
            rw [List.getElem?_eq_none (by omega)] at h1
            cases h1
          omega

/-- On a non-empty row `max_element` returns the smallest column holding the maximum. -/
theorem max_element_spec {row : List Int} (h : row ≠ []) :
    IsFirstMaxColumn row (max_element row) := by
  cases row with
  | nil => exact absurd rfl h
  | cons v vs =>
    have := maxElementFrom_spec vs [v] v 0 (by simp)
      (by
        intro j w hw
        cases j with
        | zero => simp at hw; exact le_of_eq hw.symm
        | succ j => simp at hw)
      (by intro j w hj; omega)
    simpa [max_element] using this

theorem IsFirstMaxColumn.unique {row : List Int} {c c' : Nat}
    (h : IsFirstMaxColumn row c) (h' : IsFirstMaxColumn row c') : c = c' := by
  obtain ⟨v, hv, hmax, hfirst⟩ := h
  obtain ⟨v', hv', hmax', hfirst'⟩ := h'
  rcases Nat.lt_trichotomy c c' with hlt | heq | hgt
  · have h1 := hfirst' c v hlt hv
    have h2 := hmax c' v' hv'
    omega
  · exact heq
  · have h1 := hfirst c' v' hgt hv'
    have h2 := hmax' c v hv
    omega

theorem IsFirstMaxColumn.lt_length {row : List Int} {c : Nat} (h : IsFirstMaxColumn row c) :
    c < row.length := by
  obtain ⟨v, hv, _⟩ := h
  by_contra hcon
  rw [List.getElem?_eq_none (by omega)] at hv
  cases hv

theorem BestMatches.find?_insert (m : BestMatches) (k v p : Int) :
    (m.insert k v).find? p = (m.find? p).or (if p = k then some v else none) := by
  unfold BestMatches.insert
  cases hk : m.find? k with
  | some x =>
    simp only
    by_cases hpk : p = k
    · subst hpk
      simp [hk]
    · simp [hpk]
  | none =>
    simp only
    unfold BestMatches.find? at hk ⊢
    rw [List.find?_append]
    cases hp : List.find? (fun e => e.1 == p) m with
    | some e => simp
    | none =>
      by_cases hpk : p = k
      · subst hpk
        simp [List.find?_cons]
      · have hkp : ¬ k = p := fun h => hpk h.symm
        simp [List.find?_cons, hpk, hkp]

theorem selectBest_spec (counter : Counter) :
    ∀ (bs : List BoundingBox) (m : BestMatches),
      (∀ b ∈ bs, ∃ row, vecGet? counter b.boxID = some row ∧ row ≠ []) →
      ∃ m', selectBest counter bs m = .ok m' ∧
        ∀ p : Int, m'.find? p =
          (m.find? p).or (if p ∈ bs.map (fun b => b.boxID) then rowChoice counter p else none) := by
  intro bs
  induction bs with
  | nil =>
    intro m _
    exact ⟨m, rfl, by intro p; simp⟩
  | cons b rest ih =>
    intro m hrows
    obtain ⟨row, hrow, hne⟩ := hrows b (List.mem_cons_self _ _)
    have hrest : ∀ b' ∈ rest, ∃ row, vecGet? counter b'.boxID = some row ∧ row ≠ [] :=
      fun b' hb' => hrows b' (List.mem_cons_of_mem _ hb')
    obtain ⟨f, hf, _, _⟩ := max_element_spec hne
    have hcell : vecGet? row ((max_element row : Nat) : Int) = some f := by
      rw [vecGet?_natCast]
      exact hf
    have hchoice : rowChoice counter b.boxID
        = if f > 1 then some ((max_element row : Nat) : Int) else none := by
      simp only [rowChoice, hrow, hcell]
    unfold selectBest
    simp only [hrow, hcell]
    by_cases hgt : f > 1
    · rw [if_pos hgt]
      obtain ⟨m', hm', hfind⟩ := ih (m.insert b.boxID ((max_element row : Nat) : Int)) hrest
      refine ⟨m', hm', ?_⟩
      intro p
      rw [hfind p, BestMatches.find?_insert]
      rw [if_pos hgt] at hchoice
      cases hmp : m.find? p with
      | some c => simp
      | none =>
        by_cases hpb : p = b.boxID
        · subst hpb
          simp [hchoice]
        · simp [hpb]
    · rw [if_neg hgt]
      obtain ⟨m', hm', hfind⟩ := ih m hrest
      refine ⟨m', hm', ?_⟩
      intro p
      rw [hfind p]
      rw [if_neg hgt] at hchoice
      cases hmp : m.find? p with
      | some c => simp
      | none =>
        by_cases hpb : p = b.boxID
        · subst hpb
          simp [hchoice]
        · simp [hpb]

theorem zeroCounter_hasDims (rows cols : Nat) : (zeroCounter rows cols).HasDims rows cols := by
  constructor
  · simp [zeroCounter]
  · intro row hrow
    rw [zeroCounter, List.mem_replicate] at hrow
    rw [hrow.2]
    simp

theorem Counter.increment_hasDims {counter counter' : Counter} {rows cols : Nat} {i j : Int}
    (hd : counter.HasDims rows cols) (h : counter.increment i j = some counter') :
    counter'.HasDims rows cols := by
  unfold Counter.increment at h
  cases hrow : vecGet? counter i with
  | none => simp [hrow] at h
  | some row =>
    cases hv : vecGet? row j with
    | none => simp [hrow, hv] at h
    | some v =>
      simp only [hrow, hv, Option.some.injEq] at h
      subst h
      have hmem : row ∈ counter :=
        List.mem_iff_getElem?.mpr ⟨i.toNat, (vecGet?_eq_some hrow).2⟩
      constructor
      · rw [List.length_set]
        exact hd.1
      · intro row' hrow'
        rcases List.mem_or_eq_of_mem_set hrow' with h1 | h1
        · exact hd.2 row' h1
        · rw [h1, List.length_set]
          exact hd.2 row hmem

theorem voteCorrespondence_hasDims {prevFrame currFrame : DataFrame} {counter : Counter}
    {m : DMatch} {rows cols : Nat} (hd : counter.HasDims rows cols) :
    ∀ counter', (voteCorrespondence prevFrame currFrame counter m = .ok (.next counter') ∨
        voteCorrespondence prevFrame currFrame counter m = .ok (.exit counter')) →
      counter'.HasDims rows cols := by
  intro counter' h
  unfold voteCorrespondence at h
  split at h
  · split at h
    · rcases h with h | h
      · cases h
      · cases h
        exact hd
    · split at h
      · rcases h with h | h
        · cases h
        · cases h
          exact hd
      · split at h
        · rename_i c hc
          rcases h with h | h
          · cases h
            exact Counter.increment_hasDims hd hc
          · cases h
        · rcases h with h | h <;> cases h
  · rcases h with h | h <;> cases h

theorem voteLoop_hasDims {prevFrame currFrame : DataFrame} {rows cols : Nat} :
    ∀ (ms : List DMatch) (counter counter' : Counter), counter.HasDims rows cols →
      voteLoop prevFrame currFrame ms counter = .ok counter' → counter'.HasDims rows cols := by
  intro ms
  induction ms with
  | nil =>
    intro counter counter' hd h
    cases h
    exact hd
  | cons m rest ih =>
    intro counter counter' hd h
    unfold voteLoop at h
    split at h
    · cases h
    · rename_i c hc
      cases h
      exact voteCorrespondence_hasDims hd _ (Or.inr hc)
    · rename_i c hc
      exact ih c counter' (voteCorrespondence_hasDims hd _ (Or.inl hc)) h

theorem IdsArePositions.vecGet?_row {bs : List BoundingBox} {counter : Counter} {cols : Nat}
    (hids : IdsArePositions bs) (hd : counter.HasDims bs.length cols) (hcols : cols ≠ 0) :
    ∀ b ∈ bs, ∃ row, vecGet? counter b.boxID = some row ∧ row ≠ [] := by
  intro b hb
  obtain ⟨i, hi⟩ := List.mem_iff_getElem?.mp hb
  have hlt : i < bs.length := by
    by_contra hcon
    rw [List.getElem?_eq_none (by omega)] at hi
    cases hi
  have hlt' : i < counter.length := by rw [hd.1]; exact hlt
  refine ⟨counter[i], ?_, ?_⟩
  · rw [hids i b hi, vecGet?_natCast]
    exact List.getElem?_eq_getElem hlt'
  · intro hnil
    have := hd.2 counter[i] (List.getElem_mem hlt')
    rw [hnil] at this
    exact hcols this.symm

theorem sampleFrames_idsArePositions :
    IdsArePositions samplePrevFrame.boundingBoxes ∧
      IdsArePositions sampleCurrFrame.boundingBoxes := by
  constructor
  · intro i b h
    match i, h with
    | 0, h => simp [samplePrevFrame] at h; subst h; rfl
    | i + 1, h => simp [samplePrevFrame] at h
  · intro i b h
    match i, h with
    | 0, h => simp [sampleCurrFrame] at h; subst h; rfl
    | 1, h => simp [sampleCurrFrame] at h; subst h; rfl
    | 2, h => simp [sampleCurrFrame] at h; subst h; rfl
    | i + 3, h => simp [sampleCurrFrame] at h

theorem vecGet?_isSome_of_lt {α : Type} {v : List α} {i : Int} (h0 : 0 ≤ i)
    (hlt : i < (v.length : Int)) : ∃ a, vecGet? v i = some a := by
  have h : i.toNat < v.length := by omega
  exact ⟨v[i.toNat], by rw [vecGet?, if_pos h0]; exact List.getElem?_eq_getElem h⟩

theorem firstContaining_position {bs : List BoundingBox} {pt : Point} {b : BoundingBox}
    (hids : IdsArePositions bs) (h : firstContaining bs pt = some b) :
    0 ≤ b.boxID ∧ b.boxID < (bs.length : Int) := by
  have hmem : b ∈ bs := List.mem_of_find?_eq_some h
  obtain ⟨i, hi⟩ := List.mem_iff_getElem?.mp hmem
  have hlt : i < bs.length := by
    by_contra hcon
    rw [List.getElem?_eq_none (by omega)] at hi
    cases hi
  rw [hids i b hi]
  omega

theorem Counter.increment_isSome {counter : Counter} {rows cols : Nat} {i j : Int}
    (hd : counter.HasDims rows cols) (hi : 0 ≤ i ∧ i < (rows : Int))
    (hj : 0 ≤ j ∧ j < (cols : Int)) : ∃ counter', counter.increment i j = some counter' := by
  obtain ⟨row, hrow⟩ := vecGet?_isSome_of_lt (v := counter) hi.1 (by rw [hd.1]; exact hi.2)
  have hmem : row ∈ counter := List.mem_iff_getElem?.mpr ⟨i.toNat, (vecGet?_eq_some hrow).2⟩
  obtain ⟨v, hv⟩ := vecGet?_isSome_of_lt (v := row) hj.1 (by rw [hd.2 row hmem]; exact hj.2)
  unfold Counter.increment
  simp only [hrow, hv]
  exact ⟨_, rfl⟩

/-- With region ids equal to positions in both frames and valid keypoint indices, the
voting loop reads nothing out of range: it ends with a counting matrix. -/
theorem voteLoop_total {prevFrame currFrame : DataFrame}
    (hprev : IdsArePositions prevFrame.boundingBoxes)
    (hcurr : IdsArePositions currFrame.boundingBoxes) :
    ∀ (ms : List DMatch) (counter : Counter), ValidIndices prevFrame currFrame ms →
      counter.HasDims prevFrame.boundingBoxes.length currFrame.boundingBoxes.length →
      ∃ counter', voteLoop prevFrame currFrame ms counter = .ok counter' := by
  intro ms
  induction ms with
  | nil => intro counter _ _; exact ⟨counter, rfl⟩
  | cons m rest ih =>
    intro counter hidx hd
    obtain ⟨hq, ht⟩ := hidx m (List.mem_cons_self _ _)
    have hrest : ValidIndices prevFrame currFrame rest :=
      fun m' hm' => hidx m' (List.mem_cons_of_mem _ hm')
    obtain ⟨pk, hpk⟩ := vecGet?_isSome_of_lt hq.1 hq.2
    obtain ⟨ck, hck⟩ := vecGet?_isSome_of_lt ht.1 ht.2
    unfold voteLoop voteCorrespondence
    simp only [hpk, hck]
    cases h1 : firstContaining prevFrame.boundingBoxes pk.pt with
    | none => exact ⟨counter, rfl⟩
    | some pb =>
      cases h2 : firstContaining currFrame.boundingBoxes ck.pt with
      | none => exact ⟨counter, rfl⟩
      | some cb =>
        obtain ⟨c', hc'⟩ := Counter.increment_isSome hd (firstContaining_position hprev h1)
          (firstContaining_position hcurr h2)
        simp only [hc']
        exact ih c' hrest (Counter.increment_hasDims hd hc')

/-- C2. For frames whose previous region ids equal their positions in the region list, with
a non-empty current region list and an initially empty result map, and for every
correspondence list with which the voting pass ends with the counting matrix `counter`:
`matchBoundingBoxes` returns a result, and for every previous region `p` the result
contains the entry `p -> c` if and only if `c` is the smallest column index holding the
maximum count of row `p` and that count is strictly greater than 1 (so there is no entry
for `p` when the maximum of its row is at most 1); the result has no other keys. -/
theorem matchBoundingBoxes_selects_first_max (kptMatches : List DMatch)
    (prevFrame currFrame : DataFrame) (counter : Counter)
    (hprev : IdsArePositions prevFrame.boundingBoxes)
    (hne : currFrame.boundingBoxes ≠ [])
    (hvote : voteLoop prevFrame currFrame kptMatches
      (zeroCounter prevFrame.boundingBoxes.length currFrame.boundingBoxes.length)
        = .ok counter) :
    ∃ result, matchBoundingBoxes kptMatches [] prevFrame currFrame = .ok result ∧
      (∀ p : Nat, p < prevFrame.boundingBoxes.length →
        ∃ row, counter[p]? = some row ∧
          ∀ c : Int, result.find? (p : Int) = some c ↔
            ∃ k : Nat, c = (k : Int) ∧ IsFirstMaxColumn row k ∧
              ∃ v, row[k]? = some v ∧ 1 < v) ∧
      (∀ q c : Int, result.find? q = some c →
        ∃ p : Nat, p < prevFrame.boundingBoxes.length ∧ q = (p : Int)) := by
  have hd : counter.HasDims prevFrame.boundingBoxes.length currFrame.boundingBoxes.length :=
    voteLoop_hasDims kptMatches _ counter (zeroCounter_hasDims _ _) hvote
  have hcols : currFrame.boundingBoxes.length ≠ 0 := by
    intro h
    exact hne (List.length_eq_zero.mp h)
  obtain ⟨result, hres, hfind⟩ := selectBest_spec counter prevFrame.boundingBoxes []
    (hprev.vecGet?_row hd hcols)
  have hnil : ∀ p : Int, BestMatches.find? [] p = none := fun _ => rfl
  refine ⟨result, ?_, ?_, ?_⟩
  · unfold matchBoundingBoxes
    simp only [hvote]
    exact hres
  · intro p hp
    have hp' : p < counter.length := by rw [hd.1]; exact hp
    have hbox : prevFrame.boundingBoxes[p]? = some prevFrame.boundingBoxes[p] :=
      List.getElem?_eq_getElem hp
    have hmem : (p : Int) ∈ prevFrame.boundingBoxes.map (fun b => b.boxID) := by
      rw [List.mem_map]
      exact ⟨prevFrame.boundingBoxes[p], List.getElem_mem hp, hprev p _ hbox⟩
    have hrowne : counter[p] ≠ [] := by
      intro hnil'
      have := hd.2 counter[p] (List.getElem_mem hp')
      rw [hnil'] at this
      exact hcols this.symm
    have hspec := max_element_spec hrowne
    obtain ⟨f, hf, _, _⟩ := id hspec
    refine ⟨counter[p], List.getElem?_eq_getElem hp', ?_⟩
    intro c
    rw [hfind (p : Int), hnil, if_pos hmem]
    have hchoice : rowChoice counter (p : Int)
        = if f > 1 then some ((max_element counter[p] : Nat) : Int) else none := by
      simp only [rowChoice, vecGet?_natCast, List.getElem?_eq_getElem hp', hf]
    rw [hchoice]
    constructor
    · intro h
      by_cases hgt : f > 1
      · rw [if_pos hgt] at h
        simp only [Option.none_or, Option.some.injEq] at h
        exact ⟨max_element counter[p], h.symm, hspec, f, hf, hgt⟩
      · rw [if_neg hgt] at h
        simp at h
    · rintro ⟨k, hk, hkmax, v, hv, hgt⟩
      have hkeq : k = max_element counter[p] := hkmax.unique hspec
      subst hkeq
      rw [hf] at hv
      cases hv
      rw [if_pos hgt, hk]
      rfl
  · intro q c h
    rw [hfind q, hnil] at h
    by_cases hmem : q ∈ prevFrame.boundingBoxes.map (fun b => b.boxID)
    · rw [List.mem_map] at hmem
      obtain ⟨b, hb, hbq⟩ := hmem
      obtain ⟨i, hi⟩ := List.mem_iff_getElem?.mp hb
      have hlt : i < prevFrame.boundingBoxes.length := by
        by_contra hcon
        rw [List.getElem?_eq_none (by omega)] at hi
        cases hi
      exact ⟨i, hlt, by rw [← hbq, hprev i b hi]⟩
    · rw [if_neg hmem] at h
      simp at h

theorem matchBoundingBoxes_selects_first_max_witness :
    matchBoundingBoxes [⟨0, 0⟩, ⟨0, 0⟩, ⟨0, 0⟩] [] samplePrevFrame sampleCurrFrame
        = .ok [(0, 2)] ∧
      matchBoundingBoxes [⟨0, 0⟩] [] samplePrevFrame sampleCurrFrame = .ok [] ∧
      ∃ result, matchBoundingBoxes [⟨0, 0⟩, ⟨0, 0⟩, ⟨0, 0⟩] [] samplePrevFrame sampleCurrFrame
          = .ok result ∧
        (∀ p : Nat, p < samplePrevFrame.boundingBoxes.length →
          ∃ row, ([[0, 0, 3]] : Counter)[p]? = some row ∧
            ∀ c : Int, result.find? (p : Int) = some c ↔
              ∃ k : Nat, c = (k : Int) ∧ IsFirstMaxColumn row k ∧
                ∃ v, row[k]? = some v ∧ 1 < v) ∧
        (∀ q c : Int, result.find? q = some c →
          ∃ p : Nat, p < samplePrevFrame.boundingBoxes.length ∧ q = (p : Int)) :=
  ⟨rfl, rfl,
    matchBoundingBoxes_selects_first_max [⟨0, 0⟩, ⟨0, 0⟩, ⟨0, 0⟩] samplePrevFrame
      sampleCurrFrame [[0, 0, 3]] sampleFrames_idsArePositions.1
      (by simp [sampleCurrFrame]) rfl⟩

/-- C3. With one previous region and keypoint 1 of the previous frame outside it, the list
of an unresolved correspondence followed by two resolved ones gives an empty result: the
loop is left at the unresolved correspondence and the two later ones are not counted. On
the list with the unresolved correspondence removed the result is `{0: 2}`. -/
theorem matchBoundingBoxes_unresolved_ends_voting :
    resolves samplePrevFrame sampleCurrFrame ⟨1, 0⟩ = false ∧
      List.filter (resolves samplePrevFrame sampleCurrFrame) [⟨1, 0⟩, ⟨0, 0⟩, ⟨0, 0⟩]
        = [⟨0, 0⟩, ⟨0, 0⟩] ∧
      voteLoop samplePrevFrame sampleCurrFrame [⟨1, 0⟩, ⟨0, 0⟩, ⟨0, 0⟩] (zeroCounter 1 3)
        = .ok [[0, 0, 0]] ∧
      voteLoop samplePrevFrame sampleCurrFrame [⟨0, 0⟩, ⟨0, 0⟩] (zeroCounter 1 3)
        = .ok [[0, 0, 2]] ∧
      matchBoundingBoxes [⟨1, 0⟩, ⟨0, 0⟩, ⟨0, 0⟩] [] samplePrevFrame sampleCurrFrame = .ok [] ∧
      matchBoundingBoxes
        (List.filter (resolves samplePrevFrame sampleCurrFrame) [⟨1, 0⟩, ⟨0, 0⟩, ⟨0, 0⟩]) []
        samplePrevFrame sampleCurrFrame = .ok [(0, 2)] :=
  ⟨rfl, rfl, rfl, rfl, rfl, rfl⟩

theorem firstContaining_append {pre post : List BoundingBox} {b : BoundingBox} {pt : Point}
    (hpre : ∀ b' ∈ pre, b'.roi.contains pt = false) (hb : b.roi.contains pt = true) :
    firstContaining (pre ++ b :: post) pt = some b := by
  unfold firstContaining
  rw [List.find?_append]
  have hnone : List.find? (fun bbox => bbox.roi.contains pt) pre = none := by
    rw [List.find?_eq_none]
    intro x hx
    rw [hpre x hx]
    exact Bool.false_ne_true
  rw [hnone, List.find?_cons, hb]
  rfl

theorem vecGet?_set {α : Type} (l : List α) (i : Nat) (a : α) (k : Int) :
    vecGet? (l.set i a) k =
      if k = (i : Int) then (if i < l.length then some a else none) else vecGet? l k := by
  unfold vecGet?
  by_cases hk : 0 ≤ k
  · rw [if_pos hk, if_pos hk, List.getElem?_set]
    by_cases hik : i = k.toNat
    · have : k = (i : Int) := by omega
      rw [if_pos hik, if_pos this]
    · have : ¬ k = (i : Int) := by omega
      rw [if_neg hik, if_neg this]
  · have : ¬ k = (i : Int) := by omega
    rw [if_neg hk, if_neg hk, if_neg this]

theorem Counter.cell_increment {counter counter' : Counter} {i j : Int}
    (h : counter.increment i j = some counter') :
    ∃ v, counter.cell i j = some v ∧
      ∀ i' j' : Int, counter'.cell i' j' =
        if i' = i ∧ j' = j then some (v + 1) else counter.cell i' j' := by
  unfold Counter.increment at h
  cases hrow : vecGet? counter i with
  | none => simp [hrow] at h
  | some row =>
    cases hv : vecGet? row j with
    | none => simp [hrow, hv] at h
    | some v =>
      simp only [hrow, hv, Option.some.injEq] at h
      subst h
      obtain ⟨hi0, hi⟩ := vecGet?_eq_some hrow
      obtain ⟨hj0, hj⟩ := vecGet?_eq_some hv
      have hilt : i.toNat < counter.length := by
        by_contra hcon
        rw [List.getElem?_eq_none (by omega)] at hi
        cases hi
      have hjlt : j.toNat < row.length := by
        by_contra hcon
        rw [List.getElem?_eq_none (by omega)] at hj
        cases hj
      have hi' : (i.toNat : Int) = i := Int.toNat_of_nonneg hi0
      have hj' : (j.toNat : Int) = j := Int.toNat_of_nonneg hj0
      refine ⟨v, by simp [Counter.cell, hrow, hv], ?_⟩
      intro i' j'
      unfold Counter.cell
      rw [vecGet?_set, if_pos hilt, hi']
      by_cases hii : i' = i
      · subst hii
        rw [if_pos rfl, hrow]
        simp only [Option.some_bind, true_and]
        rw [vecGet?_set, if_pos hjlt, hj']
      · rw [if_neg hii, if_neg (fun hcon => hii hcon.1)]

/-- One pass of the loop body. For every pair of frames, every counting matrix and
every correspondence whose previous-frame keypoint lies in `prev_bbox` and in no region
listed before it, and whose
current-frame keypoint lies in `curr_bbox` and in no region listed before it (regions
listed after them may contain the keypoints as well): when the cell indexed by the ids of
`prev_bbox` and `curr_bbox` exists and holds `v`, the loop body goes on with a matrix in
which that cell holds `v + 1` and every other cell is unchanged. -/
theorem voteCorrespondence_counts_first_containing (prevFrame currFrame : DataFrame)
    (counter : Counter) (m : DMatch) (prevkeypt curkeypt : KeyPoint)
    (pre₁ post₁ pre₂ post₂ : List BoundingBox) (prev_bbox curr_bbox : BoundingBox) (v : Int)
    (hq : vecGet? prevFrame.keypoints m.queryIdx = some prevkeypt)
    (ht : vecGet? currFrame.keypoints m.trainIdx = some curkeypt)
    (hprev : prevFrame.boundingBoxes = pre₁ ++ prev_bbox :: post₁)
    (hpre₁ : ∀ b ∈ pre₁, b.roi.contains prevkeypt.pt = false)
    (hin₁ : prev_bbox.roi.contains prevkeypt.pt = true)
    (hcurr : currFrame.boundingBoxes = pre₂ ++ curr_bbox :: post₂)
    (hpre₂ : ∀ b ∈ pre₂, b.roi.contains curkeypt.pt = false)
    (hin₂ : curr_bbox.roi.contains curkeypt.pt = true)
    (hcell : counter.cell prev_bbox.boxID curr_bbox.boxID = some v) :
    ∃ counter', voteCorrespondence prevFrame currFrame counter m = .ok (.next counter') ∧
      ∀ i j : Int, counter'.cell i j =
        if i = prev_bbox.boxID ∧ j = curr_bbox.boxID then some (v + 1)
        else counter.cell i j := by
  have h1 : firstContaining prevFrame.boundingBoxes prevkeypt.pt = some prev_bbox := by
    rw [hprev]
    exact firstContaining_append hpre₁ hin₁
  have h2 : firstContaining currFrame.boundingBoxes curkeypt.pt = some curr_bbox := by
    rw [hcurr]
    exact firstContaining_append hpre₂ hin₂
  have hinc : ∃ counter', counter.increment prev_bbox.boxID curr_bbox.boxID = some counter' := by
    unfold Counter.cell at hcell
    unfold Counter.increment
    cases hrow : vecGet? counter prev_bbox.boxID with
    | none => simp [hrow] at hcell
    | some row =>
      simp only [hrow, Option.some_bind] at hcell
      simp only [hcell]
      exact ⟨_, rfl⟩
  obtain ⟨counter', hinc⟩ := hinc
  refine ⟨counter', ?_, ?_⟩
  · unfold voteCorrespondence
    simp only [hq, ht, h1, h2, hinc]
  · obtain ⟨v', hv', hall⟩ := Counter.cell_increment hinc
    rw [hcell] at hv'
    cases hv'
    exact hall

theorem voteCorrespondence_counts_first_containing_witness :
    (emptyBox 1 ⟨20, 20, 100, 100⟩).roi.contains ⟨50, 50⟩ = true ∧
      ∃ counter', voteCorrespondence overlapFrame overlapFrame (zeroCounter 2 2) ⟨0, 0⟩
          = .ok (.next counter') ∧
        ∀ i j : Int, counter'.cell i j =
          if i = (emptyBox 0 ⟨0, 0, 100, 100⟩).boxID ∧ j = (emptyBox 0 ⟨0, 0, 100, 100⟩).boxID
          then some (0 + 1)
          else (zeroCounter 2 2).cell i j :=
  ⟨by decide,
    voteCorrespondence_counts_first_containing overlapFrame overlapFrame (zeroCounter 2 2)
      ⟨0, 0⟩ ⟨⟨50, 50⟩⟩ ⟨⟨50, 50⟩⟩ [] [emptyBox 1 ⟨20, 20, 100, 100⟩] []
      [emptyBox 1 ⟨20, 20, 100, 100⟩] (emptyBox 0 ⟨0, 0, 100, 100⟩)
      (emptyBox 0 ⟨0, 0, 100, 100⟩) 0 rfl rfl rfl (by simp) (by decide) rfl (by simp)
      (by decide) rfl⟩

theorem maxElementFrom_replicate_zero (k : Nat) :
    ∀ bestIdx idx : Nat, maxElementFrom 0 bestIdx idx (List.replicate k 0) = bestIdx := by
  induction k with
  | zero => intro bestIdx idx; rfl
  | succ k ih =>
    intro bestIdx idx
    rw [List.replicate_succ, maxElementFrom, if_neg (lt_irrefl 0)]
    exact ih bestIdx (idx + 1)

theorem max_element_replicate_zero (k : Nat) : max_element (List.replicate k 0) = 0 := by
  cases k with
  | zero => rfl
  | succ k =>
    rw [List.replicate_succ, max_element]
    exact maxElementFrom_replicate_zero k 0 1

theorem selectBest_zeroCounter (rows cols : Nat) (hcols : cols ≠ 0) :
    ∀ (bs : List BoundingBox) (m : BestMatches),
      (∀ b ∈ bs, 0 ≤ b.boxID ∧ b.boxID < (rows : Int)) →
      selectBest (zeroCounter rows cols) bs m = .ok m := by
  intro bs
  induction bs with
  | nil => intro m _; rfl
  | cons b rest ih =>
    intro m hids
    obtain ⟨h0, hlt⟩ := hids b (List.mem_cons_self _ _)
    have hrow : vecGet? (zeroCounter rows cols) b.boxID = some (List.replicate cols 0) := by
      unfold vecGet? zeroCounter
      rw [if_pos h0, List.getElem?_replicate, if_pos (by omega)]
    have hcell : vecGet? (List.replicate cols (0 : Int))
        ((max_element (List.replicate cols 0) : Nat) : Int) = some 0 := by
      rw [max_element_replicate_zero, vecGet?_natCast, List.getElem?_replicate,
        if_pos (by omega)]
    unfold selectBest
    simp only [hrow, hcell]
    rw [if_neg (by decide)]
    exact ih m (fun b' hb' => hids b' (List.mem_cons_of_mem _ hb'))

/-- C8 (as stated, refuted). A previous frame with one region (id 0) and a current frame
without regions, an empty correspondence list and an empty result map: the selection loop
reads element 0 of an empty matrix row, and no match is returned. The same happens when
the single previous region has id 5, which is no row of the one-row matrix. -/
theorem matchBoundingBoxes_empty_current_out_of_range :
    samplePrevFrame.boundingBoxes.length = 1 ∧ noRegionFrame.boundingBoxes = [] ∧
      matchBoundingBoxes [] [] samplePrevFrame noRegionFrame = .error Failure.outOfRange ∧
      matchBoundingBoxes [] [] samplePrevFrame noRegionFrame ≠ .ok [] ∧
      matchBoundingBoxes [] [] sparseIdFrame sampleCurrFrame = .error Failure.outOfRange := by
  refine ⟨rfl, rfl, rfl, ?_, rfl⟩
  intro h
  cases h

/-- C8 (amended). For every previous frame whose region ids are row indices of the
counting matrix (`0 ≤ id < number of previous regions`) and every current frame that has at
least one region unless the previous frame has none, `matchBoundingBoxes` called with an
empty correspondence list and an initially empty result map returns an empty match. -/
theorem matchBoundingBoxes_no_correspondences (prevFrame currFrame : DataFrame)
    (hids : ∀ b ∈ prevFrame.boundingBoxes,
      0 ≤ b.boxID ∧ b.boxID < (prevFrame.boundingBoxes.length : Int))
    (hne : prevFrame.boundingBoxes = [] ∨ currFrame.boundingBoxes ≠ []) :
    matchBoundingBoxes [] [] prevFrame currFrame = .ok [] := by
  unfold matchBoundingBoxes
  simp only [voteLoop]
  rcases hne with h | h
  · rw [h]
    rfl
  · apply selectBest_zeroCounter _ _ _ _ _ hids
    intro hlen
    exact h (List.length_eq_zero.mp hlen)

theorem matchBoundingBoxes_no_correspondences_witness :
    matchBoundingBoxes [] [] samplePrevFrame sampleCurrFrame = .ok [] :=
  matchBoundingBoxes_no_correspondences samplePrevFrame sampleCurrFrame
    (by
      intro b hb
      simp only [samplePrevFrame, List.mem_singleton] at hb
      subst hb
      decide)
    (Or.inr (by simp [sampleCurrFrame]))

/-- C16. There are frames and a correspondence list for which the result of
`matchBoundingBoxes` maps two different previous-frame region ids to the same current-frame
region id: two previous regions with two correspondences each into the single current
region give `{0: 0, 1: 0}`. -/
theorem matchBoundingBoxes_many_to_one :
    matchBoundingBoxes [⟨0, 0⟩, ⟨0, 0⟩, ⟨1, 0⟩, ⟨1, 0⟩] [] twoRegionPrevFrame oneRegionCurrFrame
        = .ok [(0, 0), (1, 0)] ∧
      ∃ (prevFrame currFrame : DataFrame) (kptMatches : List DMatch) (result : BestMatches)
        (p q c : Int),
        matchBoundingBoxes kptMatches [] prevFrame currFrame = .ok result ∧ p ≠ q ∧
          result.find? p = some c ∧ result.find? q = some c :=
  ⟨rfl, twoRegionPrevFrame, oneRegionCurrFrame, [⟨0, 0⟩, ⟨0, 0⟩, ⟨1, 0⟩, ⟨1, 0⟩],
    [(0, 0), (1, 0)], 0, 1, 0, rfl, by decide, rfl, rfl⟩

theorem BestMatches.mem_insert {m : BestMatches} {k v : Int} {e : Int × Int}
    (h : e ∈ m.insert k v) : e ∈ m ∨ e = (k, v) := by
  unfold BestMatches.insert at h
  split at h
  · exact Or.inl h
  · rcases List.mem_append.mp h with h | h
    · exact Or.inl h
    · exact Or.inr (List.mem_singleton.mp h)

theorem selectBest_entries (counter : Counter) (cols : Nat) :
    ∀ (bs : List BoundingBox) (m : BestMatches),
      (∀ b ∈ bs, ∃ row, vecGet? counter b.boxID = some row ∧ row ≠ [] ∧ row.length = cols) →
      ∃ m', selectBest counter bs m = .ok m' ∧
        ∀ e ∈ m', e ∈ m ∨ (0 ≤ e.2 ∧ e.2 < (cols : Int)) := by
  intro bs
  induction bs with
  | nil =>
    intro m _
    exact ⟨m, rfl, fun e he => Or.inl he⟩
  | cons b rest ih =>
    intro m hrows
    obtain ⟨row, hrow, hne, hlen⟩ := hrows b (List.mem_cons_self _ _)
    have hrest : ∀ b' ∈ rest,
        ∃ row, vecGet? counter b'.boxID = some row ∧ row ≠ [] ∧ row.length = cols :=
      fun b' hb' => hrows b' (List.mem_cons_of_mem _ hb')
    have hspec := max_element_spec hne
    have hlt : max_element row < cols := by
      rw [← hlen]
      exact hspec.lt_length
    obtain ⟨f, hf, _, _⟩ := id hspec
    have hcell : vecGet? row ((max_element row : Nat) : Int) = some f := by
      rw [vecGet?_natCast]
      exact hf
    unfold selectBest
    simp only [hrow, hcell]
    by_cases hgt : f > 1
    · rw [if_pos hgt]
      obtain ⟨m', hm', hall⟩ := ih (m.insert b.boxID ((max_element row : Nat) : Int)) hrest
      refine ⟨m', hm', ?_⟩
      intro e he
      rcases hall e he with h | h
      · rcases BestMatches.mem_insert h with h' | h'
        · exact Or.inl h'
        · right
          rw [h']
          simp only
          omega
      · exact Or.inr h
    · rw [if_neg hgt]
      exact ih m hrest

/-- C19. For every pair of frames in which each region's id equals its position in its
frame's region list, every correspondence index is a valid keypoint index, and the current
frame has at least one region whenever the previous frame has one, `matchBoundingBoxes`
reads no keypoint list, matrix or matrix row out of range (it returns a result), and every
entry of the result that was not in the map before the call has a value `v` with
`0 ≤ v < number of current-frame regions`, which is the id of a current-frame region. -/
theorem matchBoundingBoxes_in_range (kptMatches : List DMatch) (bbBestMatches : BestMatches)
    (prevFrame currFrame : DataFrame)
    (hprev : IdsArePositions prevFrame.boundingBoxes)
    (hcurr : IdsArePositions currFrame.boundingBoxes)
    (hidx : ValidIndices prevFrame currFrame kptMatches)
    (hne : prevFrame.boundingBoxes = [] ∨ currFrame.boundingBoxes ≠ []) :
    ∃ result, matchBoundingBoxes kptMatches bbBestMatches prevFrame currFrame = .ok result ∧
      ∀ e ∈ result, e ∈ bbBestMatches ∨
        (0 ≤ e.2 ∧ e.2 < (currFrame.boundingBoxes.length : Int) ∧
          ∃ b ∈ currFrame.boundingBoxes, b.boxID = e.2) := by
  obtain ⟨counter, hvote⟩ := voteLoop_total hprev hcurr kptMatches _ hidx
    (zeroCounter_hasDims prevFrame.boundingBoxes.length currFrame.boundingBoxes.length)
  have hd : counter.HasDims prevFrame.boundingBoxes.length currFrame.boundingBoxes.length :=
    voteLoop_hasDims kptMatches _ counter (zeroCounter_hasDims _ _) hvote
  have hrows : ∀ b ∈ prevFrame.boundingBoxes, ∃ row, vecGet? counter b.boxID = some row ∧
      row ≠ [] ∧ row.length = currFrame.boundingBoxes.length := by
    intro b hb
    rcases hne with h | h
    · rw [h] at hb
      cases hb
    · have hcols : currFrame.boundingBoxes.length ≠ 0 := by
        intro h0
        exact h (List.length_eq_zero.mp h0)
      obtain ⟨row, hrow, hrne⟩ := hprev.vecGet?_row hd hcols b hb
      have hmem : row ∈ counter :=
        List.mem_iff_getElem?.mpr ⟨_, (vecGet?_eq_some hrow).2⟩
      exact ⟨row, hrow, hrne, hd.2 row hmem⟩
  obtain ⟨result, hres, hall⟩ := selectBest_entries counter currFrame.boundingBoxes.length
    prevFrame.boundingBoxes bbBestMatches hrows
  refine ⟨result, ?_, ?_⟩
  · unfold matchBoundingBoxes
    simp only [hvote]
    exact hres
  · intro e he
    rcases hall e he with h | ⟨h0, hlt⟩
    · exact Or.inl h
    · right
      refine ⟨h0, hlt, ?_⟩
      have hn : e.2.toNat < currFrame.boundingBoxes.length := by omega
      refine ⟨currFrame.boundingBoxes[e.2.toNat], List.getElem_mem hn, ?_⟩
      rw [hcurr e.2.toNat _ (List.getElem?_eq_getElem hn)]
      exact Int.toNat_of_nonneg h0

theorem matchBoundingBoxes_in_range_witness :
    ∃ result, matchBoundingBoxes [⟨0, 0⟩, ⟨0, 0⟩, ⟨0, 0⟩] [] samplePrevFrame sampleCurrFrame
        = .ok result ∧
      ∀ e ∈ result, e ∈ ([] : BestMatches) ∨
        (0 ≤ e.2 ∧ e.2 < (sampleCurrFrame.boundingBoxes.length : Int) ∧
          ∃ b ∈ sampleCurrFrame.boundingBoxes, b.boxID = e.2) :=
  matchBoundingBoxes_in_range [⟨0, 0⟩, ⟨0, 0⟩, ⟨0, 0⟩] [] samplePrevFrame sampleCurrFrame
    sampleFrames_idsArePositions.1 sampleFrames_idsArePositions.2
    (by
      intro m hm
      simp only [List.mem_cons, List.mem_singleton, List.not_mem_nil, or_false, or_self] at hm
      subst hm
      decide)
    (Or.inr (by simp [sampleCurrFrame]))

/-- The voting loop at a correspondence it reaches: when the keypoints of the head
correspondence resolve to the first containing regions `prev_bbox` and `curr_bbox`, the
loop goes on over the remaining correspondences with a matrix in which exactly the cell of
these two regions has gone up by one. -/
theorem voteLoop_cons_counts_first_containing (prevFrame currFrame : DataFrame)
    (counter : Counter) (m : DMatch) (rest : List DMatch) (prevkeypt curkeypt : KeyPoint)
    (pre₁ post₁ pre₂ post₂ : List BoundingBox) (prev_bbox curr_bbox : BoundingBox) (v : Int)
    (hq : vecGet? prevFrame.keypoints m.queryIdx = some prevkeypt)
    (ht : vecGet? currFrame.keypoints m.trainIdx = some curkeypt)
    (hprev : prevFrame.boundingBoxes = pre₁ ++ prev_bbox :: post₁)
    (hpre₁ : ∀ b ∈ pre₁, b.roi.contains prevkeypt.pt = false)
    (hin₁ : prev_bbox.roi.contains prevkeypt.pt = true)
    (hcurr : currFrame.boundingBoxes = pre₂ ++ curr_bbox :: post₂)
    (hpre₂ : ∀ b ∈ pre₂, b.roi.contains curkeypt.pt = false)
    (hin₂ : curr_bbox.roi.contains curkeypt.pt = true)
    (hcell : counter.cell prev_bbox.boxID curr_bbox.boxID = some v) :
    ∃ counter', voteLoop prevFrame currFrame (m :: rest) counter
        = voteLoop prevFrame currFrame rest counter' ∧
      ∀ i j : Int, counter'.cell i j =
        if i = prev_bbox.boxID ∧ j = curr_bbox.boxID then some (v + 1)
        else counter.cell i j := by
  have h1 : firstContaining prevFrame.boundingBoxes prevkeypt.pt = some prev_bbox := by
    rw [hprev]
    exact firstContaining_append hpre₁ hin₁
  have h2 : firstContaining currFrame.boundingBoxes curkeypt.pt = some curr_bbox := by
    rw [hcurr]
    exact firstContaining_append hpre₂ hin₂
  have hinc : ∃ counter', counter.increment prev_bbox.boxID curr_bbox.boxID = some counter' := by
    unfold Counter.cell at hcell
    unfold Counter.increment
    cases hrow : vecGet? counter prev_bbox.boxID with
    | none => simp [hrow] at hcell
    | some row =>
      simp only [hrow, Option.some_bind] at hcell
      simp only [hcell]
      exact ⟨_, rfl⟩
  obtain ⟨counter', hinc⟩ := hinc
  refine ⟨counter', ?_, ?_⟩
  · have hbody : voteCorrespondence prevFrame currFrame counter m = .ok (.next counter') := by
      unfold voteCorrespondence
      simp only [hq, ht, h1, h2, hinc]
    rw [voteLoop, hbody]
  · obtain ⟨v', hv', hall⟩ := Counter.cell_increment hinc
    rw [hcell] at hv'
    cases hv'
    exact hall

/-- C7. Both regions of `overlapOutsideFrame` contain keypoint 0, the first of them with
id 0, and keypoint 1 lies in no region. The correspondence `(0, 0)` alone is counted in
cell `[0][0]` and in no other cell; after the unresolved correspondence `(1, 1)` the loop
has been left and the same correspondence is counted in no cell at all, so two such
correspondences give no match where they give `{0: 0}` without the unresolved one. -/
theorem matchBoundingBoxes_after_unresolved_not_counted :
    overlapOutsideFrame.boundingBoxes.map (fun b => b.roi.contains ⟨50, 50⟩) = [true, true] ∧
      firstContaining overlapOutsideFrame.boundingBoxes ⟨50, 50⟩
        = some (emptyBox 0 ⟨0, 0, 100, 100⟩) ∧
      resolves overlapOutsideFrame overlapOutsideFrame ⟨1, 1⟩ = false ∧
      voteLoop overlapOutsideFrame overlapOutsideFrame [⟨0, 0⟩] (zeroCounter 2 2)
        = .ok [[1, 0], [0, 0]] ∧
      voteLoop overlapOutsideFrame overlapOutsideFrame [⟨1, 1⟩, ⟨0, 0⟩] (zeroCounter 2 2)
        = .ok [[0, 0], [0, 0]] ∧
      matchBoundingBoxes [⟨1, 1⟩, ⟨0, 0⟩, ⟨0, 0⟩] [] overlapOutsideFrame overlapOutsideFrame
        = .ok [] ∧
      matchBoundingBoxes [⟨0, 0⟩, ⟨0, 0⟩] [] overlapOutsideFrame overlapOutsideFrame
        = .ok [(0, 0)] :=
  ⟨rfl, rfl, rfl, rfl, rfl, rfl, rfl⟩
end CamFusion
